import Mathlib

/-! Kepler collector: per-pod counter statistics.

A shallow embedding of `pkg/collector/pod_energy.go`.

* `uint64` values are natural numbers below `2 ^ 64`; every `uint64` addition
  of the source is reduced with `wrap64` and every subtraction is `sub64`.
* A method with a pointer receiver that returns `error` becomes a function
  returning the new receiver together with `Option String` (`none` is `nil`).
* A Go `map[K]*V` is an association list in which a key is looked up at its
  first occurrence; pointers are replaced by the values they point to (every
  pointer stored in a record is non-nil and is owned by exactly one slot).
* Package-level names that `pod_energy.go` uses but does not declare (metric
  lists, labels) are the fields of `Config`.
-/

namespace Kepler

/-! ## Machine arithmetic -/

/-- Largest value of Go's `uint64`, `math.MaxUint64`. -/
def MaxUint64 : Nat := 18446744073709551615

/-- Reduction of an exact sum to the `uint64` range (wrap-around addition). -/
def wrap64 (n : Nat) : Nat := n % 18446744073709551616

/-- Wrap-around `uint64` subtraction `a - b` of two `uint64` operands. -/
def sub64 (a b : Nat) : Nat := (a + 18446744073709551616 - b) % 18446744073709551616

/-- Membership of a natural number in the `uint64` range. -/
def isUInt64 (n : Nat) : Prop := n < 18446744073709551616

instance (n : Nat) : Decidable (isUInt64 n) := by
  unfold isUInt64; exact inferInstance

/-! ## Go maps -/

/-- Map read `m[k]` with the comma-ok form: `none` when the key is absent. -/
def mapGet {K V : Type} [DecidableEq K] : List (K × V) → K → Option V
  | [], _ => none
  | (k1, v1) :: rest, k => if k1 = k then some v1 else mapGet rest k

/-- Map write `m[k] = v`: replaces the entry of an existing key, adds a new
entry otherwise. -/
def mapSet {K V : Type} [DecidableEq K] : List (K × V) → K → V → List (K × V)
  | [], k, v => [(k, v)]
  | (k1, v1) :: rest, k, v =>
    if k1 = k then (k, v) :: rest else (k1, v1) :: mapSet rest k v

/-- The keys of a map, in storage order. -/
def mapKeys {K V : Type} (m : List (K × V)) : List K := m.map Prod.fst

/-! ## `UInt64Stat` -/

/-- Source type `UInt64Stat`: the current delta and the running aggregate. -/
structure UInt64Stat where
  Curr : Nat
  Aggr : Nat
  deriving DecidableEq, Repr

/-- Both fields of a stat are `uint64` values. -/
def UInt64Stat.wf (s : UInt64Stat) : Prop := isUInt64 s.Curr ∧ isUInt64 s.Aggr

instance (s : UInt64Stat) : Decidable s.wf := by
  unfold UInt64Stat.wf; exact inferInstance

/-- The zero value `UInt64Stat{}`. -/
def UInt64Stat.zero : UInt64Stat := { Curr := 0, Aggr := 0 }

/-- Source method `(*UInt64Stat).AddNewCurr`. -/
def UInt64Stat.AddNewCurr (s : UInt64Stat) (newCurr : Nat) : UInt64Stat × Option String :=
  let curr := wrap64 (s.Curr + newCurr)
  if sub64 MaxUint64 newCurr < s.Aggr then
    ({ Curr := curr, Aggr := curr },
      some ("Aggr value overflow " ++ toString (wrap64 (curr + newCurr)) ++ " < "
        ++ toString curr ++ ", reset"))
  else
    ({ Curr := curr, Aggr := wrap64 (s.Aggr + newCurr) }, none)

/-- Source method `(*UInt64Stat).SetNewAggr`. -/
def UInt64Stat.SetNewAggr (s : UInt64Stat) (newAggr : Nat) : UInt64Stat × Option String :=
  let oldAggr := s.Aggr
  if newAggr < oldAggr then
    ({ Curr := wrap64 (newAggr + sub64 MaxUint64 oldAggr), Aggr := newAggr },
      some ("Aggr value overflow " ++ toString newAggr ++ " < " ++ toString oldAggr))
  else if oldAggr = 0 then
    ({ Curr := 0, Aggr := newAggr }, none)
  else
    ({ Curr := sub64 newAggr oldAggr, Aggr := newAggr }, none)

/-- Statement `stat.Curr = uint64(0)` applied to one stat. -/
def UInt64Stat.clearCurr (s : UInt64Stat) : UInt64Stat := { Curr := 0, Aggr := s.Aggr }

/-- A run of `AddNewCurr` calls, in order: the final stat and the error of
every call. -/
def runAddNewCurr : UInt64Stat → List Nat → UInt64Stat × List (Option String)
  | s, [] => (s, [])
  | s, d :: ds =>
    let r := s.AddNewCurr d
    let rest := runAddNewCurr r.1 ds
    (rest.1, r.2 :: rest.2)

/-- A run of `SetNewAggr` calls, in order: the stat and the error after every
call. -/
def runSetNewAggr : UInt64Stat → List Nat → List (UInt64Stat × Option String)
  | _, [] => []
  | s, t :: ts =>
    let r := s.SetNewAggr t
    r :: runSetNewAggr r.1 ts

/-! ## `ContainerUInt64Stat` -/

/-- Source type `ContainerUInt64Stat`: one `UInt64Stat` per container id. -/
structure ContainerUInt64Stat where
  Stat : List (String × UInt64Stat)
  deriving DecidableEq, Repr

/-- The value `ContainerUInt64Stat{Stat: make(map[string]*UInt64Stat)}`. -/
def ContainerUInt64Stat.empty : ContainerUInt64Stat := { Stat := [] }

/-- Source method `(*ContainerUInt64Stat).AddStat`; the error of `SetNewAggr`
is dropped, as in the source. -/
def ContainerUInt64Stat.AddStat (s : ContainerUInt64Stat) (containerID : String)
    (newAggr : Nat) : ContainerUInt64Stat :=
  let s1 : ContainerUInt64Stat :=
    match mapGet s.Stat containerID with
    | none => { Stat := mapSet s.Stat containerID UInt64Stat.zero }
    | some _ => s
  match mapGet s1.Stat containerID with
  | some stat => { Stat := mapSet s1.Stat containerID (stat.SetNewAggr newAggr).1 }
  | none => s1

/-- Source method `(*ContainerUInt64Stat).Curr`: the wrap-around sum of the
currents. The source ranges over the map in an unspecified order; wrap-around
addition is commutative, the model uses storage order. -/
def ContainerUInt64Stat.Curr (s : ContainerUInt64Stat) : Nat :=
  s.Stat.foldl (fun sum kv => wrap64 (sum + kv.2.Curr)) 0

/-- Source method `(*ContainerUInt64Stat).Aggr`: the wrap-around sum of the
aggregates. -/
def ContainerUInt64Stat.Aggr (s : ContainerUInt64Stat) : Nat :=
  s.Stat.foldl (fun sum kv => wrap64 (sum + kv.2.Aggr)) 0

/-- Source method `(*ContainerUInt64Stat).ResetCurr`. -/
def ContainerUInt64Stat.ResetCurr (s : ContainerUInt64Stat) : ContainerUInt64Stat :=
  { Stat := s.Stat.map (fun kv => (kv.1, kv.2.clearCurr)) }

/-- A run of `AddStat` calls, in order, each call an `(id, total)` pair. -/
def runAddStat (s : ContainerUInt64Stat) (calls : List (String × Nat)) : ContainerUInt64Stat :=
  calls.foldl (fun acc c => acc.AddStat c.1 c.2) s

/-- The totals that a run of `AddStat` calls supplies for one id, in call
order. -/
def totalsOf (calls : List (String × Nat)) (id : String) : List Nat :=
  (calls.filter (fun c => decide (c.1 = id))).map Prod.snd

/-- Specification side of the rollup: the stat of one sub-entity is an
independent cumulative stat, `SetNewAggr` applied from `(0, 0)` to that id's
own totals. -/
def specStatOf (calls : List (String × Nat)) (id : String) : UInt64Stat :=
  (totalsOf calls id).foldl (fun st t => (st.SetNewAggr t).1) UInt64Stat.zero

/-- Specification side of the rollup: the ids that appeared, each once. -/
def specIds (calls : List (String × Nat)) : List String :=
  (calls.map Prod.fst).dedup

/-! ## `PodEnergy` -/

/-- Bit pattern of a Go `float64`; its arithmetic is not modelled. -/
structure Float64 where
  bits : Nat
  deriving DecidableEq, Repr

/-- Package-level names of package `collector` (and `attacher.EnableCPUFreq`)
that `pod_energy.go` reads and that are declared in other files. -/
structure Config where
  CPU_TIME_LABEL : String
  BYTE_READ_LABEL : String
  BYTE_WRITE_LABEL : String
  availableCounters : List String
  availableCgroupMetrics : List String
  availableKubeletMetrics : List String
  FLOAT_FEATURES : List String
  uintFeatures : List String
  EnableCPUFreq : Bool
  deriving DecidableEq, Repr

/-- Source type `PodEnergy`. -/
structure PodEnergy where
  CGroupPID : Nat
  PID : Nat
  PodName : String
  Namespace : String
  Command : String
  AvgCPUFreq : Float64
  CurrProcesses : Int
  Disks : Int
  CPUTime : UInt64Stat
  CounterStats : List (String × UInt64Stat)
  CgroupFSStats : List (String × ContainerUInt64Stat)
  KubeletStats : List (String × UInt64Stat)
  BytesRead : ContainerUInt64Stat
  BytesWrite : ContainerUInt64Stat
  CurrCPUTimePerCPU : List (Nat × Nat)
  EnergyInCore : UInt64Stat
  EnergyInDRAM : UInt64Stat
  EnergyInUncore : UInt64Stat
  EnergyInPkg : UInt64Stat
  EnergyInGPU : UInt64Stat
  EnergyInOther : UInt64Stat
  DynEnergy : UInt64Stat
  deriving DecidableEq, Repr

/-- Source function `NewPodEnergy`. -/
def NewPodEnergy (cfg : Config) (podName podNamespace : String) : PodEnergy :=
  { CGroupPID := 0
    PID := 0
    PodName := podName
    Namespace := podNamespace
    Command := ""
    AvgCPUFreq := { bits := 0 }
    CurrProcesses := 0
    Disks := 0
    CPUTime := UInt64Stat.zero
    CounterStats :=
      cfg.availableCounters.foldl (fun m metricName => mapSet m metricName UInt64Stat.zero) []
    CgroupFSStats :=
      cfg.availableCgroupMetrics.foldl
        (fun m metricName => mapSet m metricName ContainerUInt64Stat.empty) []
    KubeletStats :=
      cfg.availableKubeletMetrics.foldl
        (fun m metricName => mapSet m metricName UInt64Stat.zero) []
    BytesRead := ContainerUInt64Stat.empty
    BytesWrite := ContainerUInt64Stat.empty
    CurrCPUTimePerCPU := []
    EnergyInCore := UInt64Stat.zero
    EnergyInDRAM := UInt64Stat.zero
    EnergyInUncore := UInt64Stat.zero
    EnergyInPkg := UInt64Stat.zero
    EnergyInGPU := UInt64Stat.zero
    EnergyInOther := UInt64Stat.zero
    DynEnergy := UInt64Stat.zero }

/-- Source method `(*PodEnergy).ResetCurr`. -/
def PodEnergy.ResetCurr (v : PodEnergy) : PodEnergy :=
  { v with
    CurrProcesses := 0
    CPUTime := v.CPUTime.clearCurr
    CounterStats := v.CounterStats.map (fun kv => (kv.1, kv.2.clearCurr))
    CgroupFSStats := v.CgroupFSStats.map (fun kv => (kv.1, kv.2.ResetCurr))
    BytesRead := v.BytesRead.ResetCurr
    BytesWrite := v.BytesWrite.ResetCurr
    KubeletStats := v.KubeletStats.map (fun kv => (kv.1, kv.2.clearCurr))
    CurrCPUTimePerCPU := []
    EnergyInCore := v.EnergyInCore.clearCurr
    EnergyInDRAM := v.EnergyInDRAM.clearCurr
    EnergyInUncore := v.EnergyInUncore.clearCurr
    EnergyInPkg := v.EnergyInPkg.clearCurr
    EnergyInOther := v.EnergyInOther.clearCurr
    EnergyInGPU := v.EnergyInGPU.clearCurr
    DynEnergy := v.DynEnergy.clearCurr }

/-- Source method `(*PodEnergy).SetLatestProcess`. -/
def PodEnergy.SetLatestProcess (v : PodEnergy) (cgroupPID pid : Nat) (comm : String) :
    PodEnergy :=
  { v with CGroupPID := cgroupPID, PID := pid, Command := comm }

/-- Source method `(*PodEnergy).extractUIntCurrAggr`. -/
def PodEnergy.extractUIntCurrAggr (cfg : Config) (v : PodEnergy) (metric : String) :
    Nat × Nat :=
  match mapGet v.CounterStats metric with
  | some val => (val.Curr, val.Aggr)
  | none =>
    match mapGet v.CgroupFSStats metric with
    | some val => (val.Curr, val.Aggr)
    | none =>
      match mapGet v.KubeletStats metric with
      | some val => (val.Curr, val.Aggr)
      | none =>
        if metric = cfg.CPU_TIME_LABEL then (v.CPUTime.Curr, v.CPUTime.Aggr)
        else if metric = cfg.BYTE_READ_LABEL then (v.BytesRead.Curr, v.BytesRead.Aggr)
        else if metric = cfg.BYTE_WRITE_LABEL then (v.BytesWrite.Curr, v.BytesWrite.Aggr)
        else (0, 0)

/-! ## Export adapters

A Go `string` is a byte sequence. It is modelled by a `String` that holds one
character per byte, so that `len(s)` is `String.length` and `s[:n]` keeps the
first `n` characters. Go's numeric conversions to floating point and the `%f`
verb of `fmt` are language and library primitives; they are the fields of
`FloatOps`, and every statement below holds for every choice of them. -/

/-- Bit pattern of a Go `float32`; its arithmetic is not modelled. -/
structure Float32 where
  bits : Nat
  deriving DecidableEq, Repr

/-- The `float64` value `0` (all bits clear). -/
def Float64.zero : Float64 := { bits := 0 }

/-- Go primitives on floating-point values used by `pod_energy.go`. -/
structure FloatOps where
  /-- Conversion `float32(x)` of a `float64`. -/
  float32OfFloat64 : Float64 → Float32
  /-- Conversion `float32(x)` of a `uint64`. -/
  float32OfUInt64 : Nat → Float32
  /-- Conversion `float32(x)` of an `int`. -/
  float32OfInt : Int → Float32
  /-- Conversion `float64(x)` of a `uint64`. -/
  float64OfUInt64 : Nat → Float64
  /-- Formatting `fmt.Sprintf("%f", x)` of a `float64`. -/
  formatF : Float64 → String

/-- Conversion `uint64(x)` of an `int`: reduction modulo `2 ^ 64`. -/
def uint64OfInt (x : Int) : Nat := (x % 18446744073709551616).toNat

/-- Slice expression `s[:n]` on a string of at least `n` bytes. -/
def sliceTo (s : String) (n : Nat) : String := { data := s.data.take n }

/-- Source method `(*PodEnergy).extractFloatCurrAggr` (a stub in the source). -/
def PodEnergy.extractFloatCurrAggr (_v : PodEnergy) (_metric : String) : Float64 × Float64 :=
  (Float64.zero, Float64.zero)

/-- Source method `(*PodEnergy).ToEstimatorValues`. -/
def PodEnergy.ToEstimatorValues (ops : FloatOps) (cfg : Config) (v : PodEnergy) :
    List Float32 :=
  let values : List Float32 :=
    cfg.FLOAT_FEATURES.foldl
      (fun values metric => values ++ [ops.float32OfFloat64 (v.extractFloatCurrAggr metric).1])
      []
  let values : List Float32 :=
    cfg.uintFeatures.foldl
      (fun values metric =>
        values ++ [ops.float32OfUInt64 (v.extractUIntCurrAggr cfg metric).1])
      values
  values ++ [ops.float32OfInt v.Disks]

/-- The command as `ToPrometheusValues` prints it: cut to its first 10 bytes
when it is longer. -/
def PodEnergy.truncatedCommand (v : PodEnergy) : String :=
  if v.Command.length > 10 then sliceTo v.Command 10 else v.Command

/-- Source method `(*PodEnergy).ToPrometheusValues`. -/
def PodEnergy.ToPrometheusValues (ops : FloatOps) (cfg : Config) (v : PodEnergy) :
    List String :=
  let command : String := v.truncatedCommand
  let valuesInStr : List String := [v.PodName, v.Namespace, command]
  let valuesInStr : List String :=
    cfg.FLOAT_FEATURES.foldl
      (fun acc metric =>
        (acc ++ [ops.formatF (v.extractFloatCurrAggr metric).1])
          ++ [ops.formatF (v.extractFloatCurrAggr metric).2])
      valuesInStr
  let valuesInStr : List String :=
    cfg.uintFeatures.foldl
      (fun acc metric =>
        (acc ++ [toString (v.extractUIntCurrAggr cfg metric).1])
          ++ [toString (v.extractUIntCurrAggr cfg metric).2])
      valuesInStr
  let valuesInStr : List String :=
    if cfg.EnableCPUFreq = true then valuesInStr ++ [ops.formatF v.AvgCPUFreq]
    else valuesInStr
  valuesInStr ++ [toString (uint64OfInt v.Disks)]

/-- The stat that the `switch` of `GetPrometheusEnergyValue` selects; `none`
is the nil pointer left when no case matches. -/
def PodEnergy.energyStatOf (v : PodEnergy) (ekey : String) : Option UInt64Stat :=
  if ekey = "core" then some v.EnergyInCore
  else if ekey = "dram" then some v.EnergyInDRAM
  else if ekey = "uncore" then some v.EnergyInUncore
  else if ekey = "pkg" then some v.EnergyInPkg
  else if ekey = "gpu" then some v.EnergyInGPU
  else if ekey = "other" then some v.EnergyInOther
  else none

/-- Source method `(*PodEnergy).GetPrometheusEnergyValue`. The result `none`
is the run-time panic of reading a field through the nil pointer. -/
def PodEnergy.GetPrometheusEnergyValue (ops : FloatOps) (v : PodEnergy) (ekey : String)
    (curr : Bool) : Option Float64 :=
  match v.energyStatOf ekey with
  | none => none
  | some val =>
    if curr = true then some (ops.float64OfUInt64 val.Curr)
    else some (ops.float64OfUInt64 val.Aggr)

/-! ## Delta-policy life of a stat -/

/-- One mutation of a stat that is fed by `AddNewCurr`: a call of
`AddNewCurr`, or the assignment `Curr = 0` made by the resets. -/
inductive DeltaStep where
  | addNewCurr (newCurr : Nat)
  | resetCurr
  deriving DecidableEq, Repr

/-- The argument of the step is a `uint64` value. -/
def DeltaStep.wf : DeltaStep → Prop
  | DeltaStep.addNewCurr newCurr => isUInt64 newCurr
  | DeltaStep.resetCurr => True

instance (st : DeltaStep) : Decidable st.wf := by
  cases st <;> (unfold DeltaStep.wf; exact inferInstance)

/-- Effect of one step on the stat (the error of `AddNewCurr` is dropped). -/
def DeltaStep.apply (s : UInt64Stat) : DeltaStep → UInt64Stat
  | DeltaStep.addNewCurr newCurr => (s.AddNewCurr newCurr).1
  | DeltaStep.resetCurr => s.clearCurr

/-- A run of steps, in order. -/
def runDelta (s : UInt64Stat) (steps : List DeltaStep) : UInt64Stat :=
  steps.foldl DeltaStep.apply s

/-! ## Sample inputs

Concrete values on which the statements below are evaluated. -/

/-- A sample configuration. -/
def sampleConfig : Config :=
  { CPU_TIME_LABEL := "cpu_time"
    BYTE_READ_LABEL := "bytes_read"
    BYTE_WRITE_LABEL := "bytes_writes"
    availableCounters := ["cpu_cycles", "cache_miss"]
    availableCgroupMetrics := ["cgroupfs_memory_usage_bytes"]
    availableKubeletMetrics := ["container_cpu_usage_seconds_total"]
    FLOAT_FEATURES := ["float_metric"]
    uintFeatures := ["cpu_cycles", "cgroupfs_memory_usage_bytes", "cpu_time"]
    EnableCPUFreq := true }

/-- A stand-in for the floating-point primitives, used only to evaluate
statements on concrete inputs: it keeps the integer it is given as the bit
field and prints a fixed text. -/
def sampleOps : FloatOps :=
  { float32OfFloat64 := fun x => { bits := x.bits }
    float32OfUInt64 := fun n => { bits := n }
    float32OfInt := fun i => { bits := i.toNat }
    float64OfUInt64 := fun n => { bits := n }
    formatF := fun _ => "f" }

/-- A sample record: a new record that observed one process and holds some
recorded values. -/
def samplePod : PodEnergy :=
  { (NewPodEnergy sampleConfig "pod" "ns").SetLatestProcess 7 8 "long-running-process" with
    Disks := 2
    CPUTime := { Curr := 5, Aggr := 50 }
    CounterStats := [("cpu_cycles", { Curr := 3, Aggr := 30 }),
      ("cache_miss", { Curr := 0, Aggr := 9 })]
    CgroupFSStats := [("cgroupfs_memory_usage_bytes",
      { Stat := [("c1", { Curr := 1, Aggr := 10 }), ("c2", { Curr := 2, Aggr := 20 })] })]
    EnergyInPkg := { Curr := 11, Aggr := 110 } }

/-- A record in which the name `m` is a key of both `KubeletStats` and
`CgroupFSStats` (both configured lists hold `m`), with recorded values. -/
def overlapPod : PodEnergy :=
  { NewPodEnergy sampleConfig "pod" "ns" with
    CounterStats := []
    CgroupFSStats := [("m", { Stat := [("c1", { Curr := 3, Aggr := 4 })] })]
    KubeletStats := [("m", { Curr := 1, Aggr := 2 })] }

/-- The Go string that holds a text: the bytes of its UTF-8 encoding, one
character of the model per byte. -/
def goStringOfText (t : String) : String :=
  { data := (t.data.flatMap String.utf8EncodeChar).map (fun b => Char.ofNat b.toNat) }

/-- Number of characters (code points) of a Go string that holds UTF-8 text:
the bytes that are not continuation bytes `10xxxxxx`. -/
def runeCount (s : String) : Nat :=
  (s.data.filter (fun c => decide (c.toNat / 64 ≠ 2))).length

/-- The sample record with a command of 7 characters, each of 2 bytes. -/
def utf8Pod : PodEnergy :=
  samplePod.SetLatestProcess 7 8 (goStringOfText "ééééééé")

/-- The sample record with a negative disk count. -/
def negativeDisksPod : PodEnergy :=
  { samplePod with Disks := -1 }

/-! ## Arithmetic and map lemmas -/

theorem sub64_of_le {a b : Nat} (ha : isUInt64 a) (hb : b ≤ a) : sub64 a b = a - b := by
  unfold sub64 isUInt64 at *
  omega

theorem wrap64_of_lt {n : Nat} (h : isUInt64 n) : wrap64 n = n := by
  unfold wrap64 isUInt64 at *
  omega

theorem wrap64_isUInt64 (n : Nat) : isUInt64 (wrap64 n) := by
  unfold wrap64 isUInt64
  omega

/-- The overflow test of `AddNewCurr` is exact on `uint64` operands. -/
theorem addOverflow_iff {a d : Nat} (ha : isUInt64 a) (hd : isUInt64 d) :
    sub64 MaxUint64 d < a ↔ MaxUint64 < a + d := by
  unfold sub64 MaxUint64 isUInt64 at *
  omega

/-! ## `UInt64Stat.AddNewCurr` -/

/-- C1 (counterexample): on the stat `(5, 5)` the call `AddNewCurr(3)` does not
overflow the aggregate, yet the current afterwards is `8`, not the supplied
delta `3`. -/
theorem addNewCurr_curr_not_replaced :
    UInt64Stat.wf { Curr := 5, Aggr := 5 } ∧ isUInt64 3 ∧
      (5 : Nat) + 3 ≤ MaxUint64 ∧
      ((UInt64Stat.AddNewCurr { Curr := 5, Aggr := 5 } 3).1.Curr = 8) ∧
      ((UInt64Stat.AddNewCurr { Curr := 5, Aggr := 5 } 3).1.Curr ≠ 3) := by
  decide

/-- C1 (amended): when the aggregate does not overflow, `AddNewCurr(newDelta)`
adds the delta to the current with wrap-around, so the current accumulates
across calls; it equals the supplied delta exactly when the current was zero
before the call. -/
theorem addNewCurr_curr_accumulates (s : UInt64Stat) (newDelta : Nat)
    (hs : s.wf) (hd : isUInt64 newDelta) (_h : s.Aggr + newDelta ≤ MaxUint64) :
    (s.AddNewCurr newDelta).1.Curr = wrap64 (s.Curr + newDelta) ∧
      ((s.AddNewCurr newDelta).1.Curr = newDelta ↔ s.Curr = 0) := by
  have hc : (s.AddNewCurr newDelta).1.Curr = wrap64 (s.Curr + newDelta) := by
    unfold UInt64Stat.AddNewCurr
    split <;> rfl
  refine ⟨hc, ?_⟩
  rw [hc]
  obtain ⟨h1, _⟩ := hs
  unfold wrap64 isUInt64 at *
  omega

theorem addNewCurr_curr_accumulates_witness :
    (UInt64Stat.AddNewCurr { Curr := 0, Aggr := 40 } 2).1.Curr = wrap64 (0 + 2) ∧
      ((UInt64Stat.AddNewCurr { Curr := 0, Aggr := 40 } 2).1.Curr = 2 ↔ (0 : Nat) = 0) :=
  addNewCurr_curr_accumulates { Curr := 0, Aggr := 40 } 2 (by decide) (by decide) (by decide)

/-- Sequential runs of `AddNewCurr` that never overflow the aggregate: no call
signals an error and the aggregate grows by the exact sum of the deltas. -/
theorem runAddNewCurr_no_overflow (ds : List Nat) :
    ∀ s : UInt64Stat, s.Aggr + ds.sum ≤ MaxUint64 →
      (runAddNewCurr s ds).2 = List.replicate ds.length none ∧
        (runAddNewCurr s ds).1.Aggr = s.Aggr + ds.sum := by
  induction ds with
  | nil => intro s _; simp [runAddNewCurr]
  | cons d ds ih =>
    intro s h
    simp only [List.sum_cons] at h
    have ha : isUInt64 s.Aggr := by unfold isUInt64 MaxUint64 at *; omega
    have hd : isUInt64 d := by unfold isUInt64 MaxUint64 at *; omega
    have hno : ¬ sub64 MaxUint64 d < s.Aggr := by
      rw [addOverflow_iff ha hd]; omega
    have hsum : isUInt64 (s.Aggr + d) := by unfold isUInt64 MaxUint64 at *; omega
    have hstep : s.AddNewCurr d =
        ({ Curr := wrap64 (s.Curr + d), Aggr := s.Aggr + d }, none) := by
      unfold UInt64Stat.AddNewCurr
      simp only [hno, if_false, wrap64_of_lt hsum]
    have h2 : (s.AddNewCurr d).1.Aggr + ds.sum ≤ MaxUint64 := by
      rw [hstep]; simp only; omega
    obtain ⟨e1, e2⟩ := ih (s.AddNewCurr d).1 h2
    refine ⟨?_, ?_⟩
    · simp only [runAddNewCurr, e1, List.length_cons, List.replicate_succ]
      rw [hstep]
    · simp only [runAddNewCurr, e2, List.sum_cons]
      rw [hstep]; simp only; omega

/-- C2: from a fresh stat `(0, 0)`, a run of `AddNewCurr` over deltas whose
exact sum is at most `MaxUint64` returns no error on any call and leaves the
aggregate equal to the sum of the deltas. -/
theorem addNewCurr_run_aggregate_sum (ds : List Nat) (h : ds.sum ≤ MaxUint64) :
    (runAddNewCurr UInt64Stat.zero ds).2 = List.replicate ds.length none ∧
      (runAddNewCurr UInt64Stat.zero ds).1.Aggr = ds.sum := by
  have h0 : UInt64Stat.zero.Aggr + ds.sum ≤ MaxUint64 := by
    simpa [UInt64Stat.zero] using h
  have := runAddNewCurr_no_overflow ds UInt64Stat.zero h0
  simpa [UInt64Stat.zero] using this

theorem addNewCurr_run_aggregate_sum_witness :
    [3, 4, 18446744073709551608].sum ≤ MaxUint64 ∧
      (runAddNewCurr UInt64Stat.zero [3, 4, 18446744073709551608]).2
          = List.replicate [3, 4, 18446744073709551608].length none ∧
      (runAddNewCurr UInt64Stat.zero [3, 4, 18446744073709551608]).1.Aggr
          = [3, 4, 18446744073709551608].sum :=
  ⟨by decide, addNewCurr_run_aggregate_sum [3, 4, 18446744073709551608] (by decide)⟩

/-- C3: `AddNewCurr(newDelta)` signals an error exactly when the exact sum of
the old aggregate and the delta exceeds `MaxUint64`; then the new aggregate
equals the new current, and otherwise the new aggregate is the exact sum. -/
theorem addNewCurr_error_iff_overflow (s : UInt64Stat) (newDelta : Nat)
    (hs : s.wf) (hd : isUInt64 newDelta) :
    ((s.AddNewCurr newDelta).2.isSome = true ↔ MaxUint64 < s.Aggr + newDelta) ∧
      (MaxUint64 < s.Aggr + newDelta →
        (s.AddNewCurr newDelta).1.Aggr = (s.AddNewCurr newDelta).1.Curr) ∧
      (s.Aggr + newDelta ≤ MaxUint64 →
        (s.AddNewCurr newDelta).1.Aggr = s.Aggr + newDelta) := by
  have hiff := addOverflow_iff hs.2 hd
  by_cases hov : sub64 MaxUint64 newDelta < s.Aggr
  · have h1 := hiff.mp hov
    have hstep : (s.AddNewCurr newDelta).1 =
        { Curr := wrap64 (s.Curr + newDelta), Aggr := wrap64 (s.Curr + newDelta) } ∧
        (s.AddNewCurr newDelta).2.isSome = true := by
      unfold UInt64Stat.AddNewCurr
      simp only [hov, if_true, Option.isSome_some, and_self]
    refine ⟨⟨fun _ => h1, fun _ => hstep.2⟩, fun _ => ?_, fun h => ?_⟩
    · rw [hstep.1]
    · omega
  · have h1 : s.Aggr + newDelta ≤ MaxUint64 := by
      have := mt hiff.mpr hov
      omega
    have hsum : isUInt64 (s.Aggr + newDelta) := by unfold isUInt64 MaxUint64 at *; omega
    have hstep : s.AddNewCurr newDelta =
        ({ Curr := wrap64 (s.Curr + newDelta), Aggr := s.Aggr + newDelta }, none) := by
      unfold UInt64Stat.AddNewCurr
      simp only [hov, if_false, wrap64_of_lt hsum]
    refine ⟨⟨fun h => ?_, fun h => ?_⟩, fun h => ?_, fun _ => ?_⟩
    · rw [hstep] at h; simp at h
    · omega
    · omega
    · rw [hstep]

theorem addNewCurr_error_iff_overflow_witness :
    (((UInt64Stat.AddNewCurr { Curr := 2, Aggr := 18446744073709551610 } 10).2.isSome = true ↔
        MaxUint64 < 18446744073709551610 + 10) ∧
      (MaxUint64 < 18446744073709551610 + 10 →
        (UInt64Stat.AddNewCurr { Curr := 2, Aggr := 18446744073709551610 } 10).1.Aggr
          = (UInt64Stat.AddNewCurr { Curr := 2, Aggr := 18446744073709551610 } 10).1.Curr) ∧
      (18446744073709551610 + 10 ≤ MaxUint64 →
        (UInt64Stat.AddNewCurr { Curr := 2, Aggr := 18446744073709551610 } 10).1.Aggr
          = 18446744073709551610 + 10)) ∧
      MaxUint64 < 18446744073709551610 + 10 :=
  ⟨addNewCurr_error_iff_overflow { Curr := 2, Aggr := 18446744073709551610 } 10
      (by decide) (by decide), by decide⟩

/-- C4 (counterexample): with current `7` and aggregate `MaxUint64 - 5`, the
call `AddNewCurr(10)` signals the overflow and leaves the aggregate at `17`,
not `10`. -/
theorem addNewCurr_overflow_aggregate_not_delta :
    UInt64Stat.wf { Curr := 7, Aggr := MaxUint64 - 5 } ∧
      (UInt64Stat.AddNewCurr { Curr := 7, Aggr := MaxUint64 - 5 } 10).2.isSome = true ∧
      (UInt64Stat.AddNewCurr { Curr := 7, Aggr := MaxUint64 - 5 } 10).1.Aggr = 17 ∧
      (UInt64Stat.AddNewCurr { Curr := 7, Aggr := MaxUint64 - 5 } 10).1.Aggr ≠ 10 := by
  decide

/-- C4 (amended): for every stat whose aggregate is `MaxUint64 - 5`,
`AddNewCurr(10)` signals the overflow and leaves the aggregate equal to the
new current, the old current plus `10` with wrap-around; the aggregate is
`10` exactly when the current was zero before the call. -/
theorem addNewCurr_overflow_roundtrip (s : UInt64Stat) (hs : s.wf)
    (ha : s.Aggr = MaxUint64 - 5) :
    (s.AddNewCurr 10).2.isSome = true ∧
      (s.AddNewCurr 10).1.Aggr = (s.AddNewCurr 10).1.Curr ∧
      (s.AddNewCurr 10).1.Aggr = wrap64 (s.Curr + 10) ∧
      ((s.AddNewCurr 10).1.Aggr = 10 ↔ s.Curr = 0) := by
  have hov : sub64 MaxUint64 10 < s.Aggr := by
    rw [ha]; decide
  have hstep : (s.AddNewCurr 10).1 =
      { Curr := wrap64 (s.Curr + 10), Aggr := wrap64 (s.Curr + 10) } ∧
      (s.AddNewCurr 10).2.isSome = true := by
    unfold UInt64Stat.AddNewCurr
    simp only [hov, if_true, Option.isSome_some, and_self]
  refine ⟨hstep.2, by rw [hstep.1], by rw [hstep.1], ?_⟩
  rw [hstep.1]
  obtain ⟨h1, _⟩ := hs
  simp only
  unfold wrap64 isUInt64 at *
  omega

theorem addNewCurr_overflow_roundtrip_witness :
    (UInt64Stat.AddNewCurr { Curr := 0, Aggr := MaxUint64 - 5 } 10).2.isSome = true ∧
      (UInt64Stat.AddNewCurr { Curr := 0, Aggr := MaxUint64 - 5 } 10).1.Aggr
        = (UInt64Stat.AddNewCurr { Curr := 0, Aggr := MaxUint64 - 5 } 10).1.Curr ∧
      (UInt64Stat.AddNewCurr { Curr := 0, Aggr := MaxUint64 - 5 } 10).1.Aggr
        = wrap64 (0 + 10) ∧
      ((UInt64Stat.AddNewCurr { Curr := 0, Aggr := MaxUint64 - 5 } 10).1.Aggr = 10 ↔
        (0 : Nat) = 0) :=
  addNewCurr_overflow_roundtrip { Curr := 0, Aggr := MaxUint64 - 5 } (by decide) rfl

/-! ## `UInt64Stat.SetNewAggr` -/

/-- The three branches of `SetNewAggr` on `uint64` operands, with the machine
arithmetic resolved to exact arithmetic. -/
theorem setNewAggr_cases (s : UInt64Stat) (newTotal : Nat)
    (hs : s.wf) (ht : isUInt64 newTotal) :
    (newTotal < s.Aggr ∧
        (s.SetNewAggr newTotal).1 =
          { Curr := newTotal + (MaxUint64 - s.Aggr), Aggr := newTotal } ∧
        (s.SetNewAggr newTotal).2.isSome = true) ∨
      (s.Aggr ≤ newTotal ∧ s.Aggr = 0 ∧
        s.SetNewAggr newTotal = ({ Curr := 0, Aggr := newTotal }, none)) ∨
      (s.Aggr ≤ newTotal ∧ s.Aggr ≠ 0 ∧
        s.SetNewAggr newTotal = ({ Curr := newTotal - s.Aggr, Aggr := newTotal }, none)) := by
  obtain ⟨_, ha⟩ := hs
  by_cases h1 : newTotal < s.Aggr
  · left
    have hsub : sub64 MaxUint64 s.Aggr = MaxUint64 - s.Aggr := by
      unfold sub64 MaxUint64 isUInt64 at *; omega
    have hw : wrap64 (newTotal + (MaxUint64 - s.Aggr)) = newTotal + (MaxUint64 - s.Aggr) := by
      unfold wrap64 MaxUint64 isUInt64 at *; omega
    refine ⟨h1, ?_, ?_⟩
    · unfold UInt64Stat.SetNewAggr
      simp only [h1, if_true, hsub, hw]
    · unfold UInt64Stat.SetNewAggr
      simp only [h1, if_true, Option.isSome_some]
  · right
    by_cases h2 : s.Aggr = 0
    · left
      refine ⟨by omega, h2, ?_⟩
      unfold UInt64Stat.SetNewAggr
      simp only [h1, if_false]
      rw [if_pos h2]
    · right
      have hsub : sub64 newTotal s.Aggr = newTotal - s.Aggr :=
        sub64_of_le ht (by omega)
      refine ⟨by omega, h2, ?_⟩
      unfold UInt64Stat.SetNewAggr
      simp only [h1, if_false, h2, hsub]

/-- C5: `SetNewAggr(newTotal)` always stores `newTotal` as the aggregate; the
current becomes `0` when the old aggregate was `0`, and `newTotal` minus the
old aggregate when the old aggregate was non-zero and not above `newTotal`;
neither of these two cases returns an error. -/
theorem setNewAggr_aggregate_and_current (s : UInt64Stat) (newTotal : Nat)
    (hs : s.wf) (ht : isUInt64 newTotal) :
    (s.SetNewAggr newTotal).1.Aggr = newTotal ∧
      (s.Aggr = 0 →
        (s.SetNewAggr newTotal).1.Curr = 0 ∧ (s.SetNewAggr newTotal).2 = none) ∧
      (s.Aggr ≠ 0 → s.Aggr ≤ newTotal →
        (s.SetNewAggr newTotal).1.Curr = newTotal - s.Aggr ∧
          (s.SetNewAggr newTotal).2 = none) := by
  rcases setNewAggr_cases s newTotal hs ht with ⟨h1, e, _⟩ | ⟨h1, h2, e⟩ | ⟨h1, h2, e⟩
  · refine ⟨by rw [e], fun h0 => ?_, fun _ hle => ?_⟩ <;> omega
  · refine ⟨by rw [e], fun _ => by rw [e]; exact ⟨rfl, rfl⟩, fun hne _ => absurd h2 hne⟩
  · refine ⟨by rw [e], fun h0 => absurd h0 h2, fun _ _ => by rw [e]; exact ⟨rfl, rfl⟩⟩

theorem setNewAggr_aggregate_and_current_witness :
    ((UInt64Stat.SetNewAggr { Curr := 9, Aggr := 40 } 100).1.Aggr = 100 ∧
      ((40 : Nat) = 0 →
        (UInt64Stat.SetNewAggr { Curr := 9, Aggr := 40 } 100).1.Curr = 0 ∧
          (UInt64Stat.SetNewAggr { Curr := 9, Aggr := 40 } 100).2 = none) ∧
      ((40 : Nat) ≠ 0 → (40 : Nat) ≤ 100 →
        (UInt64Stat.SetNewAggr { Curr := 9, Aggr := 40 } 100).1.Curr = 100 - 40 ∧
          (UInt64Stat.SetNewAggr { Curr := 9, Aggr := 40 } 100).2 = none)) ∧
      (40 : Nat) ≠ 0 ∧ (40 : Nat) ≤ 100 :=
  ⟨setNewAggr_aggregate_and_current { Curr := 9, Aggr := 40 } 100 (by decide) (by decide),
    by decide, by decide⟩

/-- C7: `SetNewAggr(newTotal)` signals an error exactly when `newTotal` is
below the old aggregate, and then the current is `newTotal + (MaxUint64 - old
aggregate)`; with old aggregate `100` and new total `30` the current is
`30 + (MaxUint64 - 100)` and an error is returned. -/
theorem setNewAggr_error_iff_wrapped (s : UInt64Stat) (newTotal : Nat)
    (hs : s.wf) (ht : isUInt64 newTotal) :
    ((s.SetNewAggr newTotal).2.isSome = true ↔ newTotal < s.Aggr) ∧
      (newTotal < s.Aggr →
        (s.SetNewAggr newTotal).1.Curr = newTotal + (MaxUint64 - s.Aggr)) ∧
      (s.Aggr = 100 → newTotal = 30 →
        (s.SetNewAggr newTotal).1.Curr = 30 + (MaxUint64 - 100) ∧
          (s.SetNewAggr newTotal).2.isSome = true) := by
  rcases setNewAggr_cases s newTotal hs ht with ⟨h1, e, e2⟩ | ⟨h1, _, e⟩ | ⟨h1, _, e⟩
  · refine ⟨⟨fun _ => h1, fun _ => e2⟩, fun _ => by rw [e], fun ha hn => ?_⟩
    refine ⟨?_, e2⟩
    rw [e]; simp only [ha, hn]
  · refine ⟨⟨fun h => ?_, fun h => ?_⟩, fun h => ?_, fun ha hn => ?_⟩
    · rw [e] at h; simp at h
    · omega
    · omega
    · omega
  · refine ⟨⟨fun h => ?_, fun h => ?_⟩, fun h => ?_, fun ha hn => ?_⟩
    · rw [e] at h; simp at h
    · omega
    · omega
    · omega

theorem setNewAggr_error_iff_wrapped_witness :
    (((UInt64Stat.SetNewAggr { Curr := 4, Aggr := 100 } 30).2.isSome = true ↔
        (30 : Nat) < 100) ∧
      ((30 : Nat) < 100 →
        (UInt64Stat.SetNewAggr { Curr := 4, Aggr := 100 } 30).1.Curr
          = 30 + (MaxUint64 - 100)) ∧
      ((100 : Nat) = 100 → (30 : Nat) = 30 →
        (UInt64Stat.SetNewAggr { Curr := 4, Aggr := 100 } 30).1.Curr
            = 30 + (MaxUint64 - 100) ∧
          (UInt64Stat.SetNewAggr { Curr := 4, Aggr := 100 } 30).2.isSome = true)) ∧
      (30 : Nat) < 100 :=
  ⟨setNewAggr_error_iff_wrapped { Curr := 4, Aggr := 100 } 30 (by decide) (by decide),
    by decide⟩

/-- The two branches of `AddNewCurr` on `uint64` operands, with the overflow
test resolved to exact arithmetic. -/
theorem addNewCurr_cases (s : UInt64Stat) (d : Nat) (hs : s.wf) (hd : isUInt64 d) :
    (MaxUint64 < s.Aggr + d ∧
        (s.AddNewCurr d).1 =
          { Curr := wrap64 (s.Curr + d), Aggr := wrap64 (s.Curr + d) } ∧
        (s.AddNewCurr d).2.isSome = true) ∨
      (s.Aggr + d ≤ MaxUint64 ∧
        s.AddNewCurr d = ({ Curr := wrap64 (s.Curr + d), Aggr := s.Aggr + d }, none)) := by
  have hiff := addOverflow_iff hs.2 hd
  by_cases hov : sub64 MaxUint64 d < s.Aggr
  · left
    refine ⟨hiff.mp hov, ?_, ?_⟩ <;>
      · unfold UInt64Stat.AddNewCurr
        simp only [hov, if_true, Option.isSome_some]
  · right
    have h1 : s.Aggr + d ≤ MaxUint64 := by
      have := mt hiff.mpr hov
      omega
    have hsum : isUInt64 (s.Aggr + d) := by unfold isUInt64 MaxUint64 at *; omega
    refine ⟨h1, ?_⟩
    unfold UInt64Stat.AddNewCurr
    simp only [hov, if_false, wrap64_of_lt hsum]

/-- C8: a call of `AddNewCurr` or of `SetNewAggr` that returns no error leaves
the aggregate greater than or equal to its value before the call; a call after
which the aggregate is smaller has returned the overflow error. -/
theorem aggregate_monotone_without_error (s : UInt64Stat) (x : Nat)
    (hs : s.wf) (hx : isUInt64 x) :
    ((s.AddNewCurr x).2 = none → s.Aggr ≤ (s.AddNewCurr x).1.Aggr) ∧
      ((s.SetNewAggr x).2 = none → s.Aggr ≤ (s.SetNewAggr x).1.Aggr) ∧
      ((s.AddNewCurr x).1.Aggr < s.Aggr → (s.AddNewCurr x).2.isSome = true) ∧
      ((s.SetNewAggr x).1.Aggr < s.Aggr → (s.SetNewAggr x).2.isSome = true) := by
  have hadd : (s.AddNewCurr x).2 = none → s.Aggr ≤ (s.AddNewCurr x).1.Aggr := by
    intro hn
    rcases addNewCurr_cases s x hs hx with ⟨_, _, e2⟩ | ⟨_, e⟩
    · rw [hn] at e2; simp at e2
    · rw [e]; simp only; omega
  have hset : (s.SetNewAggr x).2 = none → s.Aggr ≤ (s.SetNewAggr x).1.Aggr := by
    intro hn
    rcases setNewAggr_cases s x hs hx with ⟨_, _, e2⟩ | ⟨h1, _, e⟩ | ⟨h1, _, e⟩
    · rw [hn] at e2; simp at e2
    · rw [e]; exact h1
    · rw [e]; exact h1
  refine ⟨hadd, hset, fun hlt => ?_, fun hlt => ?_⟩
  · cases hopt : (s.AddNewCurr x).2 with
    | none => have := hadd hopt; omega
    | some e => rfl
  · cases hopt : (s.SetNewAggr x).2 with
    | none => have := hset hopt; omega
    | some e => rfl

theorem aggregate_monotone_without_error_witness :
    (((UInt64Stat.AddNewCurr { Curr := 1, Aggr := 8 } 5).2 = none →
        8 ≤ (UInt64Stat.AddNewCurr { Curr := 1, Aggr := 8 } 5).1.Aggr) ∧
      ((UInt64Stat.SetNewAggr { Curr := 1, Aggr := 8 } 5).2 = none →
        8 ≤ (UInt64Stat.SetNewAggr { Curr := 1, Aggr := 8 } 5).1.Aggr) ∧
      ((UInt64Stat.AddNewCurr { Curr := 1, Aggr := 8 } 5).1.Aggr < 8 →
        (UInt64Stat.AddNewCurr { Curr := 1, Aggr := 8 } 5).2.isSome = true) ∧
      ((UInt64Stat.SetNewAggr { Curr := 1, Aggr := 8 } 5).1.Aggr < 8 →
        (UInt64Stat.SetNewAggr { Curr := 1, Aggr := 8 } 5).2.isSome = true)) ∧
      (UInt64Stat.AddNewCurr { Curr := 1, Aggr := 8 } 5).2 = none ∧
      (UInt64Stat.SetNewAggr { Curr := 1, Aggr := 8 } 5).1.Aggr < 8 :=
  ⟨aggregate_monotone_without_error { Curr := 1, Aggr := 8 } 5 (by decide) (by decide),
    by decide, by decide⟩

/-- A call of `SetNewAggr` whose total is not below the old aggregate: the
result in closed form. -/
theorem setNewAggr_of_le (s : UInt64Stat) (t : Nat) (hs : s.wf) (ht : isUInt64 t)
    (hle : s.Aggr ≤ t) :
    s.SetNewAggr t = ({ Curr := if s.Aggr = 0 then 0 else t - s.Aggr, Aggr := t }, none) := by
  rcases setNewAggr_cases s t hs ht with ⟨h1, _, _⟩ | ⟨_, h2, e⟩ | ⟨_, h2, e⟩
  · omega
  · rw [e, if_pos h2]
  · rw [e, if_neg h2]

/-- Runs of `SetNewAggr` over totals that never fall below the aggregate held
before them: entry `k` of the run has no error, aggregate `ts[k]`, and a
current computed from the aggregate `p` held before call `k`. -/
theorem runSetNewAggr_chain (ts : List Nat) :
    ∀ (s : UInt64Stat), s.wf → List.Chain (fun a b => a ≤ b) s.Aggr ts →
      (∀ t ∈ ts, isUInt64 t) →
      ∀ (k t p : Nat), ts[k]? = some t → (s.Aggr :: ts)[k]? = some p →
        ∃ r, (runSetNewAggr s ts)[k]? = some r ∧ r.2 = none ∧ r.1.Aggr = t ∧
          r.1.Curr = if p = 0 then 0 else t - p := by
  induction ts with
  | nil => intro s _ _ _ k t p h; simp at h
  | cons t0 ts ih =>
    intro s hs hch hu k t p hk hp
    rw [List.chain_cons] at hch
    have ht0 : isUInt64 t0 := hu t0 (List.mem_cons_self _ _)
    have hstep := setNewAggr_of_le s t0 hs ht0 hch.1
    cases k with
    | zero =>
      simp only [List.getElem?_cons_zero, Option.some.injEq] at hk hp
      subst hk hp
      refine ⟨s.SetNewAggr t0, by simp [runSetNewAggr], ?_, ?_, ?_⟩ <;> rw [hstep]
    | succ k =>
      simp only [List.getElem?_cons_succ] at hk hp
      have hwf : (s.SetNewAggr t0).1.wf := by
        rw [hstep]
        refine ⟨?_, ht0⟩
        simp only
        split
        · decide
        · unfold isUInt64 at *; omega
      have hag : (s.SetNewAggr t0).1.Aggr = t0 := by rw [hstep]
      have hch2 : List.Chain (fun a b => a ≤ b) (s.SetNewAggr t0).1.Aggr ts := by
        rw [hag]; exact hch.2
      have hp2 : ((s.SetNewAggr t0).1.Aggr :: ts)[k]? = some p := by
        rw [hag]; exact hp
      obtain ⟨r, hr, hrest⟩ := ih (s.SetNewAggr t0).1 hwf hch2
        (fun x hx => hu x (List.mem_cons_of_mem _ hx)) k t p hk hp2
      exact ⟨r, by simpa [runSetNewAggr] using hr, hrest⟩

/-- C6 (counterexample): the totals `0, 5` are non-decreasing, and after the
second call the current is `0`, although the new total minus the aggregate
held before the call is `5 - 0 = 5`. -/
theorem setNewAggr_zero_total_hides_delta :
    (0 : Nat) ≤ 5 ∧ isUInt64 0 ∧ isUInt64 5 ∧
      runSetNewAggr UInt64Stat.zero [0, 5]
        = [({ Curr := 0, Aggr := 0 }, none), ({ Curr := 0, Aggr := 5 }, none)] ∧
      (5 : Nat) - 0 ≠ 0 := by
  decide

/-- C6 (amended): from a fresh stat `(0, 0)`, a run of `SetNewAggr` over
non-decreasing totals has one entry per call; no call returns an error, the
aggregate after call `k` is `ts[k]`, the current after the first call is `0`,
and the current after a later call is `ts[k] - ts[k-1]` when the previous
total `ts[k-1]` is non-zero and `0` when it is zero. -/
theorem setNewAggr_run_nondecreasing (ts : List Nat)
    (hsorted : List.Chain' (fun a b => a ≤ b) ts) (hu : ∀ t ∈ ts, isUInt64 t) :
    (runSetNewAggr UInt64Stat.zero ts).length = ts.length ∧
      ∀ (k t : Nat), ts[k]? = some t →
        ∃ r, (runSetNewAggr UInt64Stat.zero ts)[k]? = some r ∧ r.2 = none ∧
          r.1.Aggr = t ∧ (k = 0 → r.1.Curr = 0) ∧
          (∀ (j p : Nat), k = j + 1 → ts[j]? = some p →
            r.1.Curr = if p = 0 then 0 else t - p) := by
  constructor
  · generalize UInt64Stat.zero = s
    induction ts generalizing s with
    | nil => rfl
    | cons t0 ts ih =>
      simp only [runSetNewAggr, List.length_cons, Nat.add_right_cancel_iff]
      exact ih hsorted.tail (fun x hx => hu x (List.mem_cons_of_mem _ hx)) _
  · intro k t hk
    have hch : List.Chain (fun a b => a ≤ b) UInt64Stat.zero.Aggr ts := by
      cases ts with
      | nil => exact List.Chain.nil
      | cons t0 ts => exact List.Chain.cons (Nat.zero_le _) hsorted
    have hzero : UInt64Stat.zero.wf := by decide
    have hlt : k < (UInt64Stat.zero.Aggr :: ts).length := by
      have := (List.getElem?_eq_some.mp hk).1
      simp only [List.length_cons]; omega
    obtain ⟨r, hr, he, ha, hc⟩ := runSetNewAggr_chain ts UInt64Stat.zero hzero hch hu k t
      ((UInt64Stat.zero.Aggr :: ts)[k]) hk (List.getElem?_eq_getElem hlt)
    refine ⟨r, hr, he, ha, fun h0 => ?_, fun j p hj hpj => ?_⟩
    · subst h0
      rw [hc]
      simp [UInt64Stat.zero]
    · subst hj
      rw [hc]
      have : (UInt64Stat.zero.Aggr :: ts)[j + 1] = p := by
        have h1 : (UInt64Stat.zero.Aggr :: ts)[j + 1]? = some p := by
          simpa using hpj
        rw [List.getElem?_eq_getElem hlt] at h1
        exact Option.some.inj h1
      rw [this]

theorem setNewAggr_run_nondecreasing_witness :
    List.Chain' (fun a b => a ≤ b) [10, 10, 25] ∧
      (runSetNewAggr UInt64Stat.zero [10, 10, 25]).length = [10, 10, 25].length ∧
      ∀ (k t : Nat), [10, 10, 25][k]? = some t →
        ∃ r, (runSetNewAggr UInt64Stat.zero [10, 10, 25])[k]? = some r ∧ r.2 = none ∧
          r.1.Aggr = t ∧ (k = 0 → r.1.Curr = 0) ∧
          (∀ (j p : Nat), k = j + 1 → [10, 10, 25][j]? = some p →
            r.1.Curr = if p = 0 then 0 else t - p) :=
  ⟨by simp, setNewAggr_run_nondecreasing [10, 10, 25] (by simp) (by decide)⟩

/-! ## Resets -/

/-- Reading a map whose values were all rewritten by `f`. -/
theorem mapGet_map_values {K V : Type} [DecidableEq K] (f : V → V) (m : List (K × V))
    (k : K) :
    mapGet (m.map (fun kv => (kv.1, f kv.2))) k = (mapGet m k).map f := by
  induction m with
  | nil => rfl
  | cons hd tl ih =>
    obtain ⟨k1, v1⟩ := hd
    simp only [List.map_cons, mapGet]
    split
    · rfl
    · exact ih

/-- After `ContainerUInt64Stat.ResetCurr` the summed current is zero. -/
theorem container_resetCurr_curr (s : ContainerUInt64Stat) : s.ResetCurr.Curr = 0 := by
  obtain ⟨m⟩ := s
  simp only [ContainerUInt64Stat.ResetCurr, ContainerUInt64Stat.Curr]
  induction m with
  | nil => rfl
  | cons hd tl ih =>
    simp only [List.map_cons, List.foldl_cons, UInt64Stat.clearCurr]
    exact ih

/-- `ContainerUInt64Stat.ResetCurr` leaves the summed aggregate unchanged. -/
theorem container_resetCurr_aggr (s : ContainerUInt64Stat) : s.ResetCurr.Aggr = s.Aggr := by
  obtain ⟨m⟩ := s
  simp only [ContainerUInt64Stat.ResetCurr, ContainerUInt64Stat.Aggr, List.foldl_map,
    UInt64Stat.clearCurr]

/-- C9: `PodEnergy.ResetCurr` zeroes every current and keeps every aggregate:
for every metric name `extractUIntCurrAggr` returns `(0, a)` after the reset,
`a` being the aggregate it returned before; every stat stored in the three
metric maps and in the byte rollups keeps its key and aggregate and has
current `0`; `CPUTime`, the six energy stats and `DynEnergy` have current `0`
and their old aggregate; `CurrProcesses` is `0` and the per-CPU snapshot is
empty. -/
theorem podEnergy_resetCurr_zeroes_current_keeps_aggregate (cfg : Config) (v : PodEnergy) :
    (∀ metric : String,
        v.ResetCurr.extractUIntCurrAggr cfg metric
          = (0, (v.extractUIntCurrAggr cfg metric).2)) ∧
      (∀ k : String,
        mapGet v.ResetCurr.CounterStats k
          = (mapGet v.CounterStats k).map (fun st => { Curr := 0, Aggr := st.Aggr })) ∧
      (∀ k : String,
        mapGet v.ResetCurr.KubeletStats k
          = (mapGet v.KubeletStats k).map (fun st => { Curr := 0, Aggr := st.Aggr })) ∧
      (∀ k id : String,
        (mapGet v.ResetCurr.CgroupFSStats k).bind (fun c => mapGet c.Stat id)
          = ((mapGet v.CgroupFSStats k).bind (fun c => mapGet c.Stat id)).map
              (fun st => { Curr := 0, Aggr := st.Aggr })) ∧
      (∀ id : String,
        mapGet v.ResetCurr.BytesRead.Stat id
          = (mapGet v.BytesRead.Stat id).map (fun st => { Curr := 0, Aggr := st.Aggr })) ∧
      (∀ id : String,
        mapGet v.ResetCurr.BytesWrite.Stat id
          = (mapGet v.BytesWrite.Stat id).map (fun st => { Curr := 0, Aggr := st.Aggr })) ∧
      v.ResetCurr.CPUTime = { Curr := 0, Aggr := v.CPUTime.Aggr } ∧
      v.ResetCurr.EnergyInCore = { Curr := 0, Aggr := v.EnergyInCore.Aggr } ∧
      v.ResetCurr.EnergyInDRAM = { Curr := 0, Aggr := v.EnergyInDRAM.Aggr } ∧
      v.ResetCurr.EnergyInUncore = { Curr := 0, Aggr := v.EnergyInUncore.Aggr } ∧
      v.ResetCurr.EnergyInPkg = { Curr := 0, Aggr := v.EnergyInPkg.Aggr } ∧
      v.ResetCurr.EnergyInGPU = { Curr := 0, Aggr := v.EnergyInGPU.Aggr } ∧
      v.ResetCurr.EnergyInOther = { Curr := 0, Aggr := v.EnergyInOther.Aggr } ∧
      v.ResetCurr.DynEnergy = { Curr := 0, Aggr := v.DynEnergy.Aggr } ∧
      v.ResetCurr.CurrProcesses = 0 ∧
      v.ResetCurr.CurrCPUTimePerCPU = [] := by
  have hcounter : ∀ k : String, mapGet v.ResetCurr.CounterStats k
      = (mapGet v.CounterStats k).map UInt64Stat.clearCurr :=
    fun k => mapGet_map_values UInt64Stat.clearCurr v.CounterStats k
  have hkubelet : ∀ k : String, mapGet v.ResetCurr.KubeletStats k
      = (mapGet v.KubeletStats k).map UInt64Stat.clearCurr :=
    fun k => mapGet_map_values UInt64Stat.clearCurr v.KubeletStats k
  have hcgroup : ∀ k : String, mapGet v.ResetCurr.CgroupFSStats k
      = (mapGet v.CgroupFSStats k).map ContainerUInt64Stat.ResetCurr :=
    fun k => mapGet_map_values ContainerUInt64Stat.ResetCurr v.CgroupFSStats k
  have hcont : ∀ (c : ContainerUInt64Stat) (id : String), mapGet c.ResetCurr.Stat id
      = (mapGet c.Stat id).map UInt64Stat.clearCurr :=
    fun c id => mapGet_map_values UInt64Stat.clearCurr c.Stat id
  refine ⟨fun metric => ?_, hcounter, hkubelet, fun k id => ?_, fun id => hcont _ id,
    fun id => hcont _ id, rfl, rfl, rfl, rfl, rfl, rfl, rfl, rfl, rfl, rfl⟩
  · unfold PodEnergy.extractUIntCurrAggr
    rw [hcounter, hcgroup, hkubelet]
    cases h1 : mapGet v.CounterStats metric with
    | some val => rfl
    | none =>
      cases h2 : mapGet v.CgroupFSStats metric with
      | some val =>
        simp only [Option.map_none', Option.map_some', container_resetCurr_curr,
          container_resetCurr_aggr]
      | none =>
        cases h3 : mapGet v.KubeletStats metric with
        | some val => rfl
        | none =>
          simp only [Option.map_none']
          have hr := container_resetCurr_curr v.BytesRead
          have hw := container_resetCurr_curr v.BytesWrite
          have hra := container_resetCurr_aggr v.BytesRead
          have hwa := container_resetCurr_aggr v.BytesWrite
          by_cases c1 : metric = cfg.CPU_TIME_LABEL
          · simp only [if_pos c1]; rfl
          · by_cases c2 : metric = cfg.BYTE_READ_LABEL
            · simp only [if_neg c1, if_pos c2]
              exact Prod.ext hr hra
            · by_cases c3 : metric = cfg.BYTE_WRITE_LABEL
              · simp only [if_neg c1, if_neg c2, if_pos c3]
                exact Prod.ext hw hwa
              · simp only [if_neg c1, if_neg c2, if_neg c3]
  · rw [hcgroup]
    cases mapGet v.CgroupFSStats k with
    | none => rfl
    | some c => exact hcont c id

/-! ## Rollups -/

theorem mapGet_mapSet {K V : Type} [DecidableEq K] (m : List (K × V)) (k k2 : K) (v : V) :
    mapGet (mapSet m k v) k2 = if k = k2 then some v else mapGet m k2 := by
  induction m with
  | nil => simp [mapSet, mapGet]
  | cons hd tl ih =>
    obtain ⟨k1, v1⟩ := hd
    by_cases h1 : k1 = k
    · subst h1
      simp only [mapSet, if_true, mapGet]
      split <;> rfl
    · simp only [mapSet, if_neg h1, mapGet, ih]
      by_cases h2 : k1 = k2
      · subst h2
        simp only [if_true, if_neg (Ne.symm h1)]
      · simp only [if_neg h2]

theorem mapGet_eq_none_iff {K V : Type} [DecidableEq K] (m : List (K × V)) (k : K) :
    mapGet m k = none ↔ k ∉ mapKeys m := by
  induction m with
  | nil => simp [mapGet, mapKeys]
  | cons hd tl ih =>
    obtain ⟨k1, v1⟩ := hd
    by_cases h1 : k1 = k
    · subst h1
      simp [mapGet, mapKeys]
    · simp only [mapGet, if_neg h1, ih, mapKeys, List.map_cons, List.mem_cons, not_or]
      exact ⟨fun h => ⟨Ne.symm h1, h⟩, fun h => h.2⟩

theorem mapKeys_mapSet {K V : Type} [DecidableEq K] (m : List (K × V)) (k : K) (v : V) :
    mapKeys (mapSet m k v) = if k ∈ mapKeys m then mapKeys m else mapKeys m ++ [k] := by
  induction m with
  | nil => simp [mapSet, mapKeys]
  | cons hd tl ih =>
    obtain ⟨k1, v1⟩ := hd
    by_cases h1 : k1 = k
    · subst h1
      simp [mapSet, mapKeys]
    · have h2 : k ≠ k1 := Ne.symm h1
      simp only [mapKeys] at ih
      simp only [mapSet, if_neg h1, mapKeys, List.map_cons, List.mem_cons, h2, false_or, ih]
      split <;> simp

/-- In a map with distinct keys every stored entry is the one a read of its
key returns. -/
theorem mapGet_of_mem {K V : Type} [DecidableEq K] (m : List (K × V))
    (hnd : (mapKeys m).Nodup) (kv : K × V) (hmem : kv ∈ m) : mapGet m kv.1 = some kv.2 := by
  induction m with
  | nil => simp at hmem
  | cons hd tl ih =>
    obtain ⟨k1, v1⟩ := hd
    simp only [mapKeys, List.map_cons, List.nodup_cons] at hnd
    rcases List.mem_cons.mp hmem with h | h
    · subst h
      simp [mapGet]
    · have hne : k1 ≠ kv.1 := by
        intro he
        exact hnd.1 (he ▸ List.mem_map_of_mem Prod.fst h)
      simp only [mapGet, if_neg hne]
      exact ih hnd.2 h

/-- The stat that `AddStat` leaves under each id. -/
theorem addStat_get (s : ContainerUInt64Stat) (id id2 : String) (t : Nat) :
    mapGet (s.AddStat id t).Stat id2 =
      if id = id2 then some (((mapGet s.Stat id).getD UInt64Stat.zero).SetNewAggr t).1
      else mapGet s.Stat id2 := by
  unfold ContainerUInt64Stat.AddStat
  cases h : mapGet s.Stat id with
  | none =>
    simp only [mapGet_mapSet, if_true, Option.getD_none]
    by_cases h2 : id = id2
    · simp only [if_pos h2]
    · simp only [if_neg h2]
  | some st =>
    simp only [h, mapGet_mapSet, Option.getD_some]

/-- The keys that `AddStat` leaves: the old ones, and the id when it is new. -/
theorem addStat_keys (s : ContainerUInt64Stat) (id : String) (t : Nat) :
    mapKeys (s.AddStat id t).Stat =
      if id ∈ mapKeys s.Stat then mapKeys s.Stat else mapKeys s.Stat ++ [id] := by
  unfold ContainerUInt64Stat.AddStat
  cases h : mapGet s.Stat id with
  | none =>
    have hn : id ∉ mapKeys s.Stat := (mapGet_eq_none_iff _ _).mp h
    simp only [mapGet_mapSet, if_true, mapKeys_mapSet, if_neg hn, List.mem_append,
      List.mem_singleton, or_true]
  | some st =>
    have hn : id ∈ mapKeys s.Stat := by
      by_contra hc
      rw [(mapGet_eq_none_iff _ _).mpr hc] at h
      cases h
    simp only [h, mapKeys_mapSet, if_pos hn]

theorem runAddStat_snoc (s : ContainerUInt64Stat) (calls : List (String × Nat))
    (c : String × Nat) :
    runAddStat s (calls ++ [c]) = (runAddStat s calls).AddStat c.1 c.2 := by
  simp [runAddStat, List.foldl_append]

theorem specStatOf_snoc (calls : List (String × Nat)) (c : String × Nat) (id : String) :
    specStatOf (calls ++ [c]) id =
      if c.1 = id then ((specStatOf calls id).SetNewAggr c.2).1 else specStatOf calls id := by
  unfold specStatOf totalsOf
  by_cases h : c.1 = id
  · simp [List.filter_append, List.filter_cons, h, List.foldl_append]
  · simp [List.filter_append, List.filter_cons, h]

theorem specStatOf_of_not_mem (calls : List (String × Nat)) (id : String)
    (h : id ∉ calls.map Prod.fst) : specStatOf calls id = UInt64Stat.zero := by
  unfold specStatOf totalsOf
  have : calls.filter (fun c => decide (c.1 = id)) = [] := by
    rw [List.filter_eq_nil_iff]
    intro c hc hd
    exact h (List.mem_map.mpr ⟨c, hc, of_decide_eq_true hd⟩)
  rw [this]
  rfl

/-- Invariant of a run of `AddStat` from the empty rollup: distinct keys, and
each id reads as the independent stat of its own totals. -/
theorem runAddStat_invariant (calls : List (String × Nat)) :
    (mapKeys (runAddStat ContainerUInt64Stat.empty calls).Stat).Nodup ∧
      ∀ id : String, mapGet (runAddStat ContainerUInt64Stat.empty calls).Stat id =
        if id ∈ calls.map Prod.fst then some (specStatOf calls id) else none := by
  induction calls using List.reverseRecOn with
  | nil => simp [runAddStat, ContainerUInt64Stat.empty, mapKeys, mapGet]
  | append_singleton calls c ih =>
    obtain ⟨hnd, hget⟩ := ih
    rw [runAddStat_snoc]
    constructor
    · rw [addStat_keys]
      split
      · exact hnd
      · rename_i hn
        exact List.Nodup.append hnd (List.nodup_singleton _) (by simpa using hn)
    · intro id
      rw [addStat_get, specStatOf_snoc]
      by_cases h : c.1 = id
      · subst h
        have hd : (mapGet (runAddStat ContainerUInt64Stat.empty calls).Stat c.1).getD
            UInt64Stat.zero = specStatOf calls c.1 := by
          rw [hget]
          split
          · rfl
          · rename_i hn
            rw [specStatOf_of_not_mem calls c.1 hn]
            rfl
        simp [hd]
      · have h2 : ¬ id = c.1 := fun e => h e.symm
        simp only [if_neg h, hget, List.map_append, List.mem_append, List.map_cons,
          List.map_nil, List.mem_singleton, h2, or_false]

/-- A wrap-around running sum from a `uint64` start is the exact sum reduced
once. -/
theorem foldl_wrap64_eq_sum {A : Type} (f : A → Nat) (l : List A) :
    ∀ acc : Nat, isUInt64 acc →
      l.foldl (fun sum a => wrap64 (sum + f a)) acc = wrap64 (acc + (l.map f).sum) := by
  induction l with
  | nil => intro acc h; simp [wrap64_of_lt h]
  | cons a l ih =>
    intro acc _
    simp only [List.foldl_cons, List.map_cons, List.sum_cons]
    rw [ih _ (wrap64_isUInt64 _)]
    unfold wrap64
    omega

/-- In a map with distinct keys whose reads are given by `g`, the list of a
field over the entries is the list of that field of `g` over the keys. -/
theorem map_field_eq_keys (m : List (String × UInt64Stat)) (g : String → UInt64Stat)
    (f : UInt64Stat → Nat) (hnd : (mapKeys m).Nodup)
    (hget : ∀ id ∈ mapKeys m, mapGet m id = some (g id)) :
    m.map (fun kv => f kv.2) = (mapKeys m).map (fun id => f (g id)) := by
  unfold mapKeys
  rw [List.map_map]
  apply List.map_congr_left
  intro kv hkv
  have h1 := mapGet_of_mem m hnd kv hkv
  have h2 := hget kv.1 (List.mem_map_of_mem Prod.fst hkv)
  rw [h1] at h2
  simp only [Function.comp_apply, Option.some.inj h2]

/-- C10: a rollup built by any sequence of `AddStat` calls from the empty
rollup behaves as independent per-id cumulative stats: its keys are distinct
and are exactly the ids that appeared, the stat stored for each id is
`SetNewAggr` applied from `(0, 0)` to that id's own totals in call order, and
`Curr()` and `Aggr()` are the wrap-around sums of the per-id currents and
aggregates. -/
theorem rollup_refines_independent_stats (calls : List (String × Nat)) :
    (mapKeys (runAddStat ContainerUInt64Stat.empty calls).Stat).Nodup ∧
      (∀ id : String,
        id ∈ mapKeys (runAddStat ContainerUInt64Stat.empty calls).Stat ↔
          id ∈ calls.map Prod.fst) ∧
      (∀ id : String, id ∈ calls.map Prod.fst →
        mapGet (runAddStat ContainerUInt64Stat.empty calls).Stat id
          = some (specStatOf calls id)) ∧
      (∀ id : String, id ∉ calls.map Prod.fst →
        mapGet (runAddStat ContainerUInt64Stat.empty calls).Stat id = none) ∧
      (runAddStat ContainerUInt64Stat.empty calls).Curr
        = wrap64 ((specIds calls).map (fun id => (specStatOf calls id).Curr)).sum ∧
      (runAddStat ContainerUInt64Stat.empty calls).Aggr
        = wrap64 ((specIds calls).map (fun id => (specStatOf calls id).Aggr)).sum := by
  obtain ⟨hnd, hget⟩ := runAddStat_invariant calls
  have hkeys : ∀ id : String,
      id ∈ mapKeys (runAddStat ContainerUInt64Stat.empty calls).Stat ↔
        id ∈ calls.map Prod.fst := by
    intro id
    have h1 := mapGet_eq_none_iff (runAddStat ContainerUInt64Stat.empty calls).Stat id
    rw [hget id] at h1
    by_cases hm : id ∈ calls.map Prod.fst
    · simp only [if_pos hm] at h1
      exact ⟨fun _ => hm, fun _ => by_contra fun hc => by simpa using h1.mpr hc⟩
    · simp only [if_neg hm, true_iff] at h1
      exact ⟨fun h => absurd h h1, fun h => absurd h hm⟩
  have hsome : ∀ id : String, id ∈ calls.map Prod.fst →
      mapGet (runAddStat ContainerUInt64Stat.empty calls).Stat id
        = some (specStatOf calls id) := by
    intro id hm
    rw [hget id, if_pos hm]
  have hperm : List.Perm (mapKeys (runAddStat ContainerUInt64Stat.empty calls).Stat)
      (specIds calls) := by
    unfold specIds
    rw [List.perm_ext_iff_of_nodup hnd (List.nodup_dedup _)]
    intro id
    rw [hkeys id, List.mem_dedup]
  have hsum : ∀ f : UInt64Stat → Nat,
      (runAddStat ContainerUInt64Stat.empty calls).Stat.foldl
          (fun sum kv => wrap64 (sum + f kv.2)) 0
        = wrap64 ((specIds calls).map (fun id => f (specStatOf calls id))).sum := by
    intro f
    rw [foldl_wrap64_eq_sum (fun kv : String × UInt64Stat => f kv.2) _ 0 (by decide)]
    rw [map_field_eq_keys _ (specStatOf calls) f hnd
      (fun id hid => hsome id ((hkeys id).mp hid))]
    rw [Nat.zero_add, (hperm.map _).sum_eq]
  refine ⟨hnd, hkeys, hsome, fun id hm => ?_, hsum UInt64Stat.Curr, hsum UInt64Stat.Aggr⟩
  rw [hget id, if_neg hm]

/-! ## `ContainerUInt64Stat.ResetCurr` -/

/-- C11: `ContainerUInt64Stat.ResetCurr` keeps the keys of the rollup, gives
every contained stat current `0` and its old aggregate, so that afterwards
`Curr()` is `0` and `Aggr()` is what it was before the reset. -/
theorem container_resetCurr_frame (s : ContainerUInt64Stat) :
    mapKeys s.ResetCurr.Stat = mapKeys s.Stat ∧
      (∀ id : String,
        mapGet s.ResetCurr.Stat id
          = (mapGet s.Stat id).map (fun st => { Curr := 0, Aggr := st.Aggr })) ∧
      (∀ kv ∈ s.ResetCurr.Stat, kv.2.Curr = 0) ∧
      s.ResetCurr.Curr = 0 ∧
      s.ResetCurr.Aggr = s.Aggr := by
  refine ⟨?_, fun id => mapGet_map_values UInt64Stat.clearCurr s.Stat id, ?_,
    container_resetCurr_curr s, container_resetCurr_aggr s⟩
  · simp only [ContainerUInt64Stat.ResetCurr, mapKeys, List.map_map]
    rfl
  · intro kv hkv
    simp only [ContainerUInt64Stat.ResetCurr, List.mem_map] at hkv
    obtain ⟨kv0, _, rfl⟩ := hkv
    rfl

/-! ## `PodEnergy.GetPrometheusEnergyValue` -/

/-- C12: `GetPrometheusEnergyValue` fails exactly when the domain name is none
of `core`, `dram`, `uncore`, `pkg`, `gpu`, `other`; for each of the six names
it returns the current (flag set) or the aggregate (flag clear) of the
matching energy stat, converted to `float64`. -/
theorem getPrometheusEnergyValue_fails_iff_unknown (ops : FloatOps) (v : PodEnergy)
    (ekey : String) (curr : Bool) :
    (v.GetPrometheusEnergyValue ops ekey curr = none ↔
        ekey ∉ ["core", "dram", "uncore", "pkg", "gpu", "other"]) ∧
      (∀ (name : String) (st : UInt64Stat),
        (name, st) ∈ [("core", v.EnergyInCore), ("dram", v.EnergyInDRAM),
            ("uncore", v.EnergyInUncore), ("pkg", v.EnergyInPkg),
            ("gpu", v.EnergyInGPU), ("other", v.EnergyInOther)] →
        v.GetPrometheusEnergyValue ops name true = some (ops.float64OfUInt64 st.Curr) ∧
          v.GetPrometheusEnergyValue ops name false = some (ops.float64OfUInt64 st.Aggr)) := by
  constructor
  · unfold PodEnergy.GetPrometheusEnergyValue PodEnergy.energyStatOf
    simp only [List.mem_cons, List.mem_singleton, List.not_mem_nil, or_false, not_or]
    by_cases h1 : ekey = "core"
    · subst h1; cases curr <;> simp
    by_cases h2 : ekey = "dram"
    · subst h2; cases curr <;> simp
    by_cases h3 : ekey = "uncore"
    · subst h3; cases curr <;> simp
    by_cases h4 : ekey = "pkg"
    · subst h4; cases curr <;> simp
    by_cases h5 : ekey = "gpu"
    · subst h5; cases curr <;> simp
    by_cases h6 : ekey = "other"
    · subst h6; cases curr <;> simp
    simp [h1, h2, h3, h4, h5, h6]
  · intro name st hmem
    simp only [List.mem_cons, List.mem_singleton, Prod.mk.injEq, List.not_mem_nil,
      or_false] at hmem
    rcases hmem with ⟨rfl, rfl⟩ | ⟨rfl, rfl⟩ | ⟨rfl, rfl⟩ | ⟨rfl, rfl⟩ | ⟨rfl, rfl⟩ | ⟨rfl, rfl⟩ <;>
      exact ⟨by simp [PodEnergy.GetPrometheusEnergyValue, PodEnergy.energyStatOf],
        by simp [PodEnergy.GetPrometheusEnergyValue, PodEnergy.energyStatOf]⟩

/-! ## `PodEnergy.extractUIntCurrAggr` -/

/-- C13: for a metric name that is a key of none of `CounterStats`,
`CgroupFSStats`, `KubeletStats` and is none of the three special labels,
`extractUIntCurrAggr` returns `(0, 0)`. -/
theorem extractUIntCurrAggr_unknown (cfg : Config) (v : PodEnergy) (metric : String)
    (hc : metric ∉ mapKeys v.CounterStats) (hg : metric ∉ mapKeys v.CgroupFSStats)
    (hk : metric ∉ mapKeys v.KubeletStats) (h1 : metric ≠ cfg.CPU_TIME_LABEL)
    (h2 : metric ≠ cfg.BYTE_READ_LABEL) (h3 : metric ≠ cfg.BYTE_WRITE_LABEL) :
    v.extractUIntCurrAggr cfg metric = (0, 0) := by
  unfold PodEnergy.extractUIntCurrAggr
  rw [(mapGet_eq_none_iff _ _).mpr hc, (mapGet_eq_none_iff _ _).mpr hg,
    (mapGet_eq_none_iff _ _).mpr hk]
  simp only [if_neg h1, if_neg h2, if_neg h3]

theorem extractUIntCurrAggr_unknown_witness :
    samplePod.extractUIntCurrAggr sampleConfig "no_such_metric" = (0, 0) :=
  extractUIntCurrAggr_unknown sampleConfig samplePod "no_such_metric"
    (by decide) (by decide) (by decide) (by decide) (by decide) (by decide)

/-- C14 (counterexample): in `overlapPod` the name `m` is a key of the
simple-counter map `KubeletStats`, whose stat is `(1, 2)`, and of the rolled-up
map `CgroupFSStats`; `extractUIntCurrAggr` returns the rollup's `(3, 4)`, not
the simple counter's `(1, 2)`. -/
theorem extractUIntCurrAggr_rollup_before_kubelet :
    mapGet overlapPod.KubeletStats "m" = some { Curr := 1, Aggr := 2 } ∧
      "m" ∈ mapKeys overlapPod.CgroupFSStats ∧
      overlapPod.extractUIntCurrAggr sampleConfig "m" = (3, 4) ∧
      overlapPod.extractUIntCurrAggr sampleConfig "m" ≠ (1, 2) := by
  decide

/-- C14 (amended): `extractUIntCurrAggr` resolves a name in the order
`CounterStats`, `CgroupFSStats`, `KubeletStats`, special names. A key of
`CounterStats` yields that stat's pair whatever the other maps hold; otherwise
a key of `CgroupFSStats` yields the rollup's `(Curr(), Aggr())`; otherwise a key
of `KubeletStats` yields that stat's pair; otherwise the CPU-time label, then
the bytes-read label, then the bytes-written label yield the pair of the
dedicated field. -/
theorem extractUIntCurrAggr_resolution_order (cfg : Config) (v : PodEnergy)
    (metric : String) :
    (∀ st, mapGet v.CounterStats metric = some st →
        v.extractUIntCurrAggr cfg metric = (st.Curr, st.Aggr)) ∧
      (metric ∉ mapKeys v.CounterStats →
        ∀ c, mapGet v.CgroupFSStats metric = some c →
          v.extractUIntCurrAggr cfg metric = (c.Curr, c.Aggr)) ∧
      (metric ∉ mapKeys v.CounterStats → metric ∉ mapKeys v.CgroupFSStats →
        ∀ st, mapGet v.KubeletStats metric = some st →
          v.extractUIntCurrAggr cfg metric = (st.Curr, st.Aggr)) ∧
      (metric ∉ mapKeys v.CounterStats → metric ∉ mapKeys v.CgroupFSStats →
        metric ∉ mapKeys v.KubeletStats →
        (metric = cfg.CPU_TIME_LABEL →
          v.extractUIntCurrAggr cfg metric = (v.CPUTime.Curr, v.CPUTime.Aggr)) ∧
        (metric ≠ cfg.CPU_TIME_LABEL → metric = cfg.BYTE_READ_LABEL →
          v.extractUIntCurrAggr cfg metric = (v.BytesRead.Curr, v.BytesRead.Aggr)) ∧
        (metric ≠ cfg.CPU_TIME_LABEL → metric ≠ cfg.BYTE_READ_LABEL →
          metric = cfg.BYTE_WRITE_LABEL →
          v.extractUIntCurrAggr cfg metric = (v.BytesWrite.Curr, v.BytesWrite.Aggr))) := by
  refine ⟨fun st h => ?_, fun hc c h => ?_, fun hc hg st h => ?_, fun hc hg hk => ?_⟩
  · unfold PodEnergy.extractUIntCurrAggr
    rw [h]
  · unfold PodEnergy.extractUIntCurrAggr
    rw [(mapGet_eq_none_iff _ _).mpr hc, h]
  · unfold PodEnergy.extractUIntCurrAggr
    rw [(mapGet_eq_none_iff _ _).mpr hc, (mapGet_eq_none_iff _ _).mpr hg, h]
  · have hnone : v.extractUIntCurrAggr cfg metric =
        if metric = cfg.CPU_TIME_LABEL then (v.CPUTime.Curr, v.CPUTime.Aggr)
        else if metric = cfg.BYTE_READ_LABEL then (v.BytesRead.Curr, v.BytesRead.Aggr)
        else if metric = cfg.BYTE_WRITE_LABEL then (v.BytesWrite.Curr, v.BytesWrite.Aggr)
        else (0, 0) := by
      unfold PodEnergy.extractUIntCurrAggr
      rw [(mapGet_eq_none_iff _ _).mpr hc, (mapGet_eq_none_iff _ _).mpr hg,
        (mapGet_eq_none_iff _ _).mpr hk]
    refine ⟨fun h1 => ?_, fun h1 h2 => ?_, fun h1 h2 h3 => ?_⟩
    · rw [hnone, if_pos h1]
    · rw [hnone, if_neg h1, if_pos h2]
    · rw [hnone, if_neg h1, if_neg h2, if_pos h3]

/-! ## Export adapters -/

/-- A loop that appends one value per element builds the mapped list. -/
theorem foldl_append_one {A B : Type} (g : A → B) (l : List A) :
    ∀ init : List B, l.foldl (fun acc x => acc ++ [g x]) init = init ++ l.map g := by
  induction l with
  | nil => intro init; simp
  | cons a l ih =>
    intro init
    simp only [List.foldl_cons, List.map_cons, ih, List.append_assoc, List.singleton_append]

/-- A loop that appends two values per element builds the list of the pairs,
in order. -/
theorem foldl_append_two {A B : Type} (g h : A → B) (l : List A) :
    ∀ init : List B,
      l.foldl (fun acc x => (acc ++ [g x]) ++ [h x]) init
        = init ++ l.flatMap (fun x => [g x, h x]) := by
  induction l with
  | nil => intro init; simp
  | cons a l ih =>
    intro init
    rw [List.foldl_cons, ih, List.flatMap_cons]
    simp only [List.append_assoc, List.singleton_append, List.cons_append, List.nil_append]

theorem length_flatMap_two {A B : Type} (g h : A → B) (l : List A) :
    (l.flatMap (fun x => [g x, h x])).length = 2 * l.length := by
  induction l with
  | nil => rfl
  | cons a l ih =>
    simp only [List.flatMap_cons, List.length_append, ih, List.length_cons, List.length_nil]
    omega

/-- The value of `ToEstimatorValues` in closed form. -/
theorem toEstimatorValues_eq (ops : FloatOps) (cfg : Config) (v : PodEnergy) :
    v.ToEstimatorValues ops cfg =
      cfg.FLOAT_FEATURES.map (fun _ => ops.float32OfFloat64 Float64.zero)
        ++ cfg.uintFeatures.map
            (fun metric => ops.float32OfUInt64 (v.extractUIntCurrAggr cfg metric).1)
        ++ [ops.float32OfInt v.Disks] := by
  unfold PodEnergy.ToEstimatorValues
  simp only [PodEnergy.extractFloatCurrAggr]
  rw [foldl_append_one (fun _ => ops.float32OfFloat64 Float64.zero) cfg.FLOAT_FEATURES [],
    foldl_append_one
      (fun metric => ops.float32OfUInt64 (v.extractUIntCurrAggr cfg metric).1)
      cfg.uintFeatures]
  simp only [List.nil_append]

/-- C15: `ToEstimatorValues` returns `len(FLOAT_FEATURES) + len(uintFeatures)
+ 1` values in configured order: first, for every float feature, the `float32`
conversion of the `0` that the stub `extractFloatCurrAggr` returns; then at
position `len(FLOAT_FEATURES) + i` the `float32` conversion of the current that
`extractUIntCurrAggr` returns for `uintFeatures[i]`; last the `float32`
conversion of the disk count. -/
theorem toEstimatorValues_layout (ops : FloatOps) (cfg : Config) (v : PodEnergy) :
    (v.ToEstimatorValues ops cfg).length
        = cfg.FLOAT_FEATURES.length + cfg.uintFeatures.length + 1 ∧
      (∀ i : Nat, i < cfg.FLOAT_FEATURES.length →
        (v.ToEstimatorValues ops cfg)[i]? = some (ops.float32OfFloat64 Float64.zero)) ∧
      (∀ (i : Nat) (metric : String), cfg.uintFeatures[i]? = some metric →
        (v.ToEstimatorValues ops cfg)[cfg.FLOAT_FEATURES.length + i]?
          = some (ops.float32OfUInt64 (v.extractUIntCurrAggr cfg metric).1)) ∧
      (v.ToEstimatorValues ops cfg)[cfg.FLOAT_FEATURES.length + cfg.uintFeatures.length]?
        = some (ops.float32OfInt v.Disks) := by
  rw [toEstimatorValues_eq]
  refine ⟨by simp [Nat.add_assoc], fun i hi => ?_, fun i metric hm => ?_, ?_⟩
  · rw [List.append_assoc, List.getElem?_append_left (by simpa using hi), List.getElem?_map,
      List.getElem?_eq_getElem hi]
    rfl
  · have hi : i < cfg.uintFeatures.length := (List.getElem?_eq_some.mp hm).1
    rw [List.append_assoc, List.getElem?_append_right (by simp)]
    simp only [List.length_map, Nat.add_sub_cancel_left]
    rw [List.getElem?_append_left (by simpa using hi), List.getElem?_map, hm]
    rfl
  · rw [List.getElem?_append_right (by simp)]
    simp

/-- The value of `ToPrometheusValues` in closed form. -/
theorem toPrometheusValues_eq (ops : FloatOps) (cfg : Config) (v : PodEnergy) :
    v.ToPrometheusValues ops cfg =
      [v.PodName, v.Namespace, v.truncatedCommand]
        ++ cfg.FLOAT_FEATURES.flatMap
            (fun _ => [ops.formatF Float64.zero, ops.formatF Float64.zero])
        ++ cfg.uintFeatures.flatMap
            (fun metric => [toString (v.extractUIntCurrAggr cfg metric).1,
              toString (v.extractUIntCurrAggr cfg metric).2])
        ++ (if cfg.EnableCPUFreq = true then [ops.formatF v.AvgCPUFreq] else [])
        ++ [toString (uint64OfInt v.Disks)] := by
  unfold PodEnergy.ToPrometheusValues
  simp only [PodEnergy.extractFloatCurrAggr]
  rw [foldl_append_two (fun _ => ops.formatF Float64.zero) (fun _ => ops.formatF Float64.zero)
      cfg.FLOAT_FEATURES,
    foldl_append_two (fun metric => toString (v.extractUIntCurrAggr cfg metric).1)
      (fun metric => toString (v.extractUIntCurrAggr cfg metric).2) cfg.uintFeatures]
  split <;> simp

/-- The third field of `ToPrometheusValues` is the truncated command. -/
theorem toPrometheusValues_third (ops : FloatOps) (cfg : Config) (v : PodEnergy) :
    (v.ToPrometheusValues ops cfg)[2]? = some v.truncatedCommand := by
  rw [toPrometheusValues_eq]
  simp

/-- C16 (counterexample): the sample record has the command
`long-running-process`; the third field of `ToPrometheusValues` is the
10-byte text `long-runni`, which is not `long-runn`. -/
theorem toPrometheusValues_command_ten_bytes :
    samplePod.Command = "long-running-process" ∧
      (samplePod.ToPrometheusValues sampleOps sampleConfig)[2]? = some "long-runni" ∧
      (samplePod.ToPrometheusValues sampleOps sampleConfig)[2]? ≠ some "long-runn" := by
  refine ⟨by decide, ?_, ?_⟩
  · rw [toPrometheusValues_third]; decide
  · rw [toPrometheusValues_third]; decide

/-- C16 (amended): for a record whose command is `long-running-process`, the
third field returned by `ToPrometheusValues` is `long-runni`, the first 10
bytes of the command. -/
theorem toPrometheusValues_command_example (ops : FloatOps) (cfg : Config) (v : PodEnergy)
    (hcmd : v.Command = "long-running-process") :
    (v.ToPrometheusValues ops cfg)[2]? = some "long-runni" := by
  rw [toPrometheusValues_third, PodEnergy.truncatedCommand, hcmd]
  decide

theorem toPrometheusValues_command_example_witness :
    samplePod.Command = "long-running-process" ∧
      (samplePod.ToPrometheusValues sampleOps sampleConfig)[2]? = some "long-runni" :=
  ⟨by decide, toPrometheusValues_command_example sampleOps sampleConfig samplePod (by decide)⟩

/-- The last field of `ToPrometheusValues` is the decimal text of the disk
count reduced modulo `2 ^ 64`. -/
theorem toPrometheusValues_last (ops : FloatOps) (cfg : Config) (v : PodEnergy) :
    (v.ToPrometheusValues ops cfg).getLast?
      = some (toString ((v.Disks % 18446744073709551616).toNat)) := by
  rw [toPrometheusValues_eq, List.getLast?_append]
  rfl

/-- C17 (counterexample): the command of `utf8Pod` is the text `ééééééé`, 7
characters in 14 bytes; although it has at most 10 characters, the third field
of `ToPrometheusValues` is not the command but its first 10 bytes, the text
`ééééé`. The disk count of `negativeDisksPod` is `-1`, and the last field is
`18446744073709551615`, not the decimal text `-1` of the disk count. -/
theorem toPrometheusValues_command_cut_in_bytes :
    utf8Pod.Command = goStringOfText "ééééééé" ∧
      "ééééééé".length = 7 ∧
      runeCount utf8Pod.Command = 7 ∧
      utf8Pod.Command.length = 14 ∧
      (utf8Pod.ToPrometheusValues sampleOps sampleConfig)[2]?
        = some (goStringOfText "ééééé") ∧
      (utf8Pod.ToPrometheusValues sampleOps sampleConfig)[2]? ≠ some utf8Pod.Command ∧
      negativeDisksPod.Disks = -1 ∧
      toString negativeDisksPod.Disks = "-1" ∧
      (negativeDisksPod.ToPrometheusValues sampleOps sampleConfig).getLast?
        = some "18446744073709551615" ∧
      (negativeDisksPod.ToPrometheusValues sampleOps sampleConfig).getLast? ≠ some "-1" := by
  refine ⟨by decide, by decide, by decide, by decide, ?_, ?_, by decide, by decide, ?_, ?_⟩
  · rw [toPrometheusValues_third]; decide
  · rw [toPrometheusValues_third]; decide
  · rw [toPrometheusValues_last]; decide
  · rw [toPrometheusValues_last]; decide

/-- C17 (amended): `ToPrometheusValues` returns `3 + 2 * len(FLOAT_FEATURES) +
2 * len(uintFeatures) + f + 1` fields, `f` being `1` when the CPU-frequency
flag is set and `0` otherwise, in this order: pod name, namespace, the command
cut to at most 10 bytes (the command itself when it has at most 10 bytes, its
first 10 bytes otherwise; bytes and characters coincide for an ASCII command),
for each configured metric its current then its aggregate (the formatted stub
`0` for a float feature, decimal text for an unsigned feature), the formatted
average frequency only when the flag is set, and last the decimal text of the
disk count reduced modulo `2 ^ 64`: the disk count itself when it is not
negative, the disk count plus `2 ^ 64` when it is negative. -/
theorem toPrometheusValues_layout (ops : FloatOps) (cfg : Config) (v : PodEnergy) :
    (v.ToPrometheusValues ops cfg =
        [v.PodName, v.Namespace,
            if 10 < v.Command.length then String.mk (v.Command.data.take 10) else v.Command]
          ++ cfg.FLOAT_FEATURES.flatMap
              (fun _ => [ops.formatF Float64.zero, ops.formatF Float64.zero])
          ++ cfg.uintFeatures.flatMap
              (fun metric => [toString (v.extractUIntCurrAggr cfg metric).1,
                toString (v.extractUIntCurrAggr cfg metric).2])
          ++ (if cfg.EnableCPUFreq = true then [ops.formatF v.AvgCPUFreq] else [])
          ++ [toString ((v.Disks % 18446744073709551616).toNat)]) ∧
      (v.ToPrometheusValues ops cfg).length
        = 3 + 2 * cfg.FLOAT_FEATURES.length + 2 * cfg.uintFeatures.length
            + (if cfg.EnableCPUFreq = true then 1 else 0) + 1 ∧
      (v.ToPrometheusValues ops cfg)[0]? = some v.PodName ∧
      (v.ToPrometheusValues ops cfg)[1]? = some v.Namespace ∧
      (v.ToPrometheusValues ops cfg)[2]? = some v.truncatedCommand ∧
      v.truncatedCommand.length ≤ 10 ∧
      (v.Command.length ≤ 10 → v.truncatedCommand = v.Command) ∧
      (10 < v.Command.length →
        v.truncatedCommand.length = 10 ∧
          v.truncatedCommand.data = v.Command.data.take 10) ∧
      (∃ rest : List Char, v.Command.data = v.truncatedCommand.data ++ rest) ∧
      ((∀ c ∈ v.Command.data, c.toNat < 128) → runeCount v.Command = v.Command.length) ∧
      (v.ToPrometheusValues ops cfg).getLast?
        = some (toString ((v.Disks % 18446744073709551616).toNat)) ∧
      (0 ≤ v.Disks → v.Disks < 9223372036854775808 →
        (v.ToPrometheusValues ops cfg).getLast? = some (toString v.Disks.toNat)) ∧
      (-9223372036854775808 ≤ v.Disks → v.Disks < 0 →
        (v.ToPrometheusValues ops cfg).getLast?
          = some (toString (v.Disks + 18446744073709551616).toNat)) := by
  refine ⟨?_, ?_, ?_, ?_, toPrometheusValues_third ops cfg v, ?_, fun h => ?_, fun h => ?_, ?_,
    fun h => ?_, toPrometheusValues_last ops cfg v, fun h0 h1 => ?_, fun h0 h1 => ?_⟩
  · rw [toPrometheusValues_eq]
    rfl
  · rw [toPrometheusValues_eq]
    simp only [List.length_append, length_flatMap_two, List.length_cons, List.length_nil]
    split <;> simp
  · rw [toPrometheusValues_eq]
    simp
  · rw [toPrometheusValues_eq]
    simp
  · unfold PodEnergy.truncatedCommand
    split
    · show (List.take 10 v.Command.data).length ≤ 10
      rw [List.length_take]
      omega
    · omega
  · unfold PodEnergy.truncatedCommand
    rw [if_neg (by omega)]
  · unfold PodEnergy.truncatedCommand
    rw [if_pos h]
    refine ⟨?_, rfl⟩
    show (List.take 10 v.Command.data).length = 10
    rw [List.length_take]
    have : v.Command.data.length = v.Command.length := rfl
    omega
  · unfold PodEnergy.truncatedCommand
    split
    · exact ⟨v.Command.data.drop 10, (List.take_append_drop 10 v.Command.data).symm⟩
    · exact ⟨[], by simp⟩
  · unfold runeCount
    have hall : v.Command.data.filter (fun c => decide (c.toNat / 64 ≠ 2)) = v.Command.data := by
      rw [List.filter_eq_self]
      intro c hc
      have := h c hc
      simp only [decide_eq_true_eq]
      omega
    rw [hall]
    rfl
  · rw [toPrometheusValues_last, Int.emod_eq_of_lt h0 (by omega)]
  · rw [toPrometheusValues_last]
    have : v.Disks % 18446744073709551616 = v.Disks + 18446744073709551616 := by
      omega
    rw [this]

/-! ## `NewPodEnergy` -/

/-- Reads of a map filled by a loop that stores the same value under every
name of a list. -/
theorem foldl_mapSet_get {V : Type} (z : V) (l : List String) :
    ∀ (m : List (String × V)) (k : String),
      mapGet (l.foldl (fun acc name => mapSet acc name z) m) k
        = if k ∈ l then some z else mapGet m k := by
  induction l with
  | nil => intro m k; simp
  | cons a l ih =>
    intro m k
    rw [List.foldl_cons, ih, mapGet_mapSet]
    by_cases h1 : k ∈ l
    · simp [h1]
    · by_cases h2 : a = k
      · subst h2; simp
      · have h3 : ¬ k = a := fun e => h2 e.symm
        simp [h1, h2, h3]

/-- The loop that fills a map keeps its keys distinct. -/
theorem foldl_mapSet_nodup {V : Type} (z : V) (l : List String) :
    ∀ (m : List (String × V)), (mapKeys m).Nodup →
      (mapKeys (l.foldl (fun acc name => mapSet acc name z) m)).Nodup := by
  induction l with
  | nil => intro m h; exact h
  | cons a l ih =>
    intro m h
    rw [List.foldl_cons]
    apply ih
    rw [mapKeys_mapSet]
    split
    · exact h
    · rename_i hn
      exact List.Nodup.append h (List.nodup_singleton _) (by simpa using hn)

/-- Keys of a map filled from the empty map: exactly the names of the list. -/
theorem foldl_mapSet_keys {V : Type} (z : V) (l : List String) (k : String) :
    k ∈ mapKeys (l.foldl (fun acc name => mapSet acc name z) ([] : List (String × V)))
      ↔ k ∈ l := by
  have h1 := mapGet_eq_none_iff
    (l.foldl (fun acc name => mapSet acc name z) ([] : List (String × V))) k
  rw [foldl_mapSet_get] at h1
  by_cases hm : k ∈ l
  · simp only [if_pos hm] at h1
    exact ⟨fun _ => hm, fun _ => by_contra fun hc => by simpa using h1.mpr hc⟩
  · simp only [if_neg hm, mapGet, true_iff] at h1
    exact ⟨fun h => absurd h h1, fun h => absurd h hm⟩

theorem mapKeys_map_values {K V : Type} (f : V → V) (m : List (K × V)) :
    mapKeys (m.map (fun kv => (kv.1, f kv.2))) = mapKeys m := by
  simp only [mapKeys, List.map_map]
  rfl

/-- C18: a record returned by `NewPodEnergy` has as keys of `CounterStats`,
`CgroupFSStats` and `KubeletStats` exactly the names of `availableCounters`,
`availableCgroupMetrics` and `availableKubeletMetrics`, each key once; every
contained stat starts at `(0, 0)` and every rollup starts empty; `ResetCurr`
and `SetLatestProcess` leave the keys of the three maps of any record
unchanged. -/
theorem newPodEnergy_metric_names_fixed (cfg : Config) (podName podNamespace : String) :
    (∀ k : String, k ∈ mapKeys (NewPodEnergy cfg podName podNamespace).CounterStats
        ↔ k ∈ cfg.availableCounters) ∧
      (∀ k : String, k ∈ mapKeys (NewPodEnergy cfg podName podNamespace).CgroupFSStats
        ↔ k ∈ cfg.availableCgroupMetrics) ∧
      (∀ k : String, k ∈ mapKeys (NewPodEnergy cfg podName podNamespace).KubeletStats
        ↔ k ∈ cfg.availableKubeletMetrics) ∧
      (mapKeys (NewPodEnergy cfg podName podNamespace).CounterStats).Nodup ∧
      (mapKeys (NewPodEnergy cfg podName podNamespace).CgroupFSStats).Nodup ∧
      (mapKeys (NewPodEnergy cfg podName podNamespace).KubeletStats).Nodup ∧
      (∀ k ∈ cfg.availableCounters,
        mapGet (NewPodEnergy cfg podName podNamespace).CounterStats k
          = some { Curr := 0, Aggr := 0 }) ∧
      (∀ k ∈ cfg.availableCgroupMetrics,
        mapGet (NewPodEnergy cfg podName podNamespace).CgroupFSStats k
          = some { Stat := [] }) ∧
      (∀ k ∈ cfg.availableKubeletMetrics,
        mapGet (NewPodEnergy cfg podName podNamespace).KubeletStats k
          = some { Curr := 0, Aggr := 0 }) ∧
      (∀ stat ∈ [(NewPodEnergy cfg podName podNamespace).CPUTime,
          (NewPodEnergy cfg podName podNamespace).EnergyInCore,
          (NewPodEnergy cfg podName podNamespace).EnergyInDRAM,
          (NewPodEnergy cfg podName podNamespace).EnergyInUncore,
          (NewPodEnergy cfg podName podNamespace).EnergyInPkg,
          (NewPodEnergy cfg podName podNamespace).EnergyInGPU,
          (NewPodEnergy cfg podName podNamespace).EnergyInOther,
          (NewPodEnergy cfg podName podNamespace).DynEnergy],
        stat = { Curr := 0, Aggr := 0 }) ∧
      (NewPodEnergy cfg podName podNamespace).BytesRead = { Stat := [] } ∧
      (NewPodEnergy cfg podName podNamespace).BytesWrite = { Stat := [] } ∧
      (∀ w : PodEnergy,
        mapKeys w.ResetCurr.CounterStats = mapKeys w.CounterStats ∧
          mapKeys w.ResetCurr.CgroupFSStats = mapKeys w.CgroupFSStats ∧
          mapKeys w.ResetCurr.KubeletStats = mapKeys w.KubeletStats) ∧
      (∀ (w : PodEnergy) (cgroupPID pid : Nat) (comm : String),
        mapKeys (w.SetLatestProcess cgroupPID pid comm).CounterStats = mapKeys w.CounterStats ∧
          mapKeys (w.SetLatestProcess cgroupPID pid comm).CgroupFSStats
            = mapKeys w.CgroupFSStats ∧
          mapKeys (w.SetLatestProcess cgroupPID pid comm).KubeletStats
            = mapKeys w.KubeletStats) := by
  refine ⟨fun k => foldl_mapSet_keys _ _ k, fun k => foldl_mapSet_keys _ _ k,
    fun k => foldl_mapSet_keys _ _ k,
    foldl_mapSet_nodup _ _ [] List.nodup_nil, foldl_mapSet_nodup _ _ [] List.nodup_nil,
    foldl_mapSet_nodup _ _ [] List.nodup_nil, fun k hk => ?_, fun k hk => ?_, fun k hk => ?_,
    ?_, rfl, rfl, fun w => ?_, fun w cgroupPID pid comm => ⟨rfl, rfl, rfl⟩⟩
  · show mapGet (cfg.availableCounters.foldl _ []) k = _
    rw [foldl_mapSet_get, if_pos hk]
    rfl
  · show mapGet (cfg.availableCgroupMetrics.foldl _ []) k = _
    rw [foldl_mapSet_get, if_pos hk]
    rfl
  · show mapGet (cfg.availableKubeletMetrics.foldl _ []) k = _
    rw [foldl_mapSet_get, if_pos hk]
    rfl
  · intro stat hstat
    simp only [NewPodEnergy, List.mem_cons, List.mem_singleton, List.not_mem_nil, or_false,
      or_self] at hstat
    rw [hstat]
    rfl
  · exact ⟨mapKeys_map_values UInt64Stat.clearCurr w.CounterStats,
      mapKeys_map_values ContainerUInt64Stat.ResetCurr w.CgroupFSStats,
      mapKeys_map_values UInt64Stat.clearCurr w.KubeletStats⟩

/-! ## Delta policy and the wrapped case -/

/-- One step keeps the stat in range and keeps `Curr ≤ Aggr`. -/
theorem deltaStep_preserves (s : UInt64Stat) (st : DeltaStep) (hs : s.wf)
    (hle : s.Curr ≤ s.Aggr) (hst : st.wf) :
    (DeltaStep.apply s st).wf ∧ (DeltaStep.apply s st).Curr ≤ (DeltaStep.apply s st).Aggr := by
  cases st with
  | resetCurr =>
    have h0 : isUInt64 0 := by decide
    exact ⟨⟨h0, hs.2⟩, Nat.zero_le _⟩
  | addNewCurr d =>
    have hd : isUInt64 d := hst
    simp only [DeltaStep.apply]
    rcases addNewCurr_cases s d hs hd with ⟨_, e, _⟩ | ⟨hsum, e⟩
    · rw [e]
      exact ⟨⟨wrap64_isUInt64 _, wrap64_isUInt64 _⟩, Nat.le_refl _⟩
    · rw [e]
      refine ⟨⟨wrap64_isUInt64 _, ?_⟩, ?_⟩
      · show isUInt64 (s.Aggr + d)
        unfold isUInt64 MaxUint64 at *; omega
      · show wrap64 (s.Curr + d) ≤ s.Aggr + d
        unfold wrap64
        have := Nat.mod_le (s.Curr + d) 18446744073709551616
        omega

/-- Every run of steps from a stat in range with `Curr ≤ Aggr` ends in such a
stat. -/
theorem runDelta_preserves (steps : List DeltaStep) :
    ∀ s : UInt64Stat, s.wf → s.Curr ≤ s.Aggr → (∀ st ∈ steps, st.wf) →
      (runDelta s steps).wf ∧ (runDelta s steps).Curr ≤ (runDelta s steps).Aggr := by
  induction steps with
  | nil => intro s hs hle _; exact ⟨hs, hle⟩
  | cons st steps ih =>
    intro s hs hle hall
    obtain ⟨h1, h2⟩ := deltaStep_preserves s st hs hle (hall st (List.mem_cons_self _ _))
    exact ih (DeltaStep.apply s st) h1 h2 (fun x hx => hall x (List.mem_cons_of_mem _ hx))

/-- C19: a stat that starts at `(0, 0)` and is mutated only by `AddNewCurr`
calls (overflowing or not) and by resets of the current satisfies
`Curr ≤ Aggr` after every step, and a further `AddNewCurr` call whose addition
to the current wraps around `2 ^ 64` also signals the aggregate overflow. -/
theorem delta_policy_curr_le_aggr (steps : List DeltaStep) (hwf : ∀ st ∈ steps, st.wf)
    (k : Nat) :
    (runDelta UInt64Stat.zero (steps.take k)).wf ∧
      (runDelta UInt64Stat.zero (steps.take k)).Curr
        ≤ (runDelta UInt64Stat.zero (steps.take k)).Aggr ∧
      ∀ d : Nat, isUInt64 d →
        MaxUint64 < (runDelta UInt64Stat.zero (steps.take k)).Curr + d →
        ((runDelta UInt64Stat.zero (steps.take k)).AddNewCurr d).2.isSome = true := by
  obtain ⟨h1, h2⟩ := runDelta_preserves (steps.take k) UInt64Stat.zero (by decide)
    (Nat.le_refl _) (fun st hst => hwf st (List.mem_of_mem_take hst))
  refine ⟨h1, h2, fun d hd hwrap => ?_⟩
  rcases addNewCurr_cases _ d h1 hd with ⟨_, _, e⟩ | ⟨hsum, _⟩
  · exact e
  · omega

theorem delta_policy_curr_le_aggr_witness :
    (runDelta UInt64Stat.zero
        ([DeltaStep.addNewCurr 5, DeltaStep.resetCurr,
          DeltaStep.addNewCurr 18446744073709551615, DeltaStep.addNewCurr 3].take 4)).wf ∧
      (runDelta UInt64Stat.zero
        ([DeltaStep.addNewCurr 5, DeltaStep.resetCurr,
          DeltaStep.addNewCurr 18446744073709551615, DeltaStep.addNewCurr 3].take 4)).Curr
        ≤ (runDelta UInt64Stat.zero
        ([DeltaStep.addNewCurr 5, DeltaStep.resetCurr,
          DeltaStep.addNewCurr 18446744073709551615, DeltaStep.addNewCurr 3].take 4)).Aggr ∧
      ∀ d : Nat, isUInt64 d →
        MaxUint64 < (runDelta UInt64Stat.zero
          ([DeltaStep.addNewCurr 5, DeltaStep.resetCurr,
            DeltaStep.addNewCurr 18446744073709551615, DeltaStep.addNewCurr 3].take 4)).Curr
            + d →
        ((runDelta UInt64Stat.zero
          ([DeltaStep.addNewCurr 5, DeltaStep.resetCurr,
            DeltaStep.addNewCurr 18446744073709551615,
            DeltaStep.addNewCurr 3].take 4)).AddNewCurr d).2.isSome = true :=
  delta_policy_curr_le_aggr
    [DeltaStep.addNewCurr 5, DeltaStep.resetCurr,
      DeltaStep.addNewCurr 18446744073709551615, DeltaStep.addNewCurr 3]
    (by decide) 4

/-- C20: in the wrapped case of `SetNewAggr` (new total below the old
aggregate) the sum `newTotal + (MaxUint64 - oldAggregate)` does not exceed
`MaxUint64`, so the machine addition is exact; the resulting current is
strictly below `MaxUint64` and is one less than the modular distance
`(newTotal - oldAggregate) mod 2 ^ 64`. -/
theorem setNewAggr_wrapped_one_short (s : UInt64Stat) (newTotal : Nat)
    (hs : s.wf) (ht : isUInt64 newTotal) (hlt : newTotal < s.Aggr) :
    newTotal + (MaxUint64 - s.Aggr) ≤ MaxUint64 ∧
      wrap64 (newTotal + sub64 MaxUint64 s.Aggr) = newTotal + (MaxUint64 - s.Aggr) ∧
      (s.SetNewAggr newTotal).1.Curr = newTotal + (MaxUint64 - s.Aggr) ∧
      (s.SetNewAggr newTotal).1.Curr < MaxUint64 ∧
      ((s.SetNewAggr newTotal).1.Curr : Int)
        = ((newTotal : Int) - (s.Aggr : Int)) % 18446744073709551616 - 1 := by
  have ha : s.Aggr < 18446744073709551616 := hs.2
  have hsub : sub64 MaxUint64 s.Aggr = MaxUint64 - s.Aggr := by
    unfold sub64 MaxUint64; omega
  have hcurr : (s.SetNewAggr newTotal).1.Curr = newTotal + (MaxUint64 - s.Aggr) := by
    rcases setNewAggr_cases s newTotal hs ht with ⟨_, e, _⟩ | ⟨h1, _, _⟩ | ⟨h1, _, _⟩
    · rw [e]
    · omega
    · omega
  refine ⟨?_, ?_, hcurr, ?_, ?_⟩
  · unfold MaxUint64; omega
  · rw [hsub]
    unfold wrap64 MaxUint64; omega
  · rw [hcurr]
    unfold MaxUint64; omega
  · rw [hcurr]
    unfold MaxUint64
    omega

theorem setNewAggr_wrapped_one_short_witness :
    (30 : Nat) < 100 ∧
      (30 + (MaxUint64 - 100) ≤ MaxUint64 ∧
      wrap64 (30 + sub64 MaxUint64 100) = 30 + (MaxUint64 - 100) ∧
      (UInt64Stat.SetNewAggr { Curr := 4, Aggr := 100 } 30).1.Curr = 30 + (MaxUint64 - 100) ∧
      (UInt64Stat.SetNewAggr { Curr := 4, Aggr := 100 } 30).1.Curr < MaxUint64 ∧
      (((UInt64Stat.SetNewAggr { Curr := 4, Aggr := 100 } 30).1.Curr : Nat) : Int)
        = (((30 : Nat) : Int) - ((100 : Nat) : Int)) % 18446744073709551616 - 1) :=
  ⟨by decide,
    setNewAggr_wrapped_one_short { Curr := 4, Aggr := 100 } 30 (by decide) (by decide)
      (by decide)⟩

end Kepler
